import Mathlib

/-!
Shallow embedding of the live-trading core of qteasy (src/qteasy/trading.py):
account/position ledger updates, trade-order state machine, signal parsing
and itemization, fill processing and settlement.  Monetary and quantity
values are modelled as rationals, record stores as association lists keyed
by integer ids, and raised Python exceptions as `Option String` error
components returned alongside the (possibly partially updated) state.
-/

namespace Qteasy

/-- Position side, `'long' | 'short'` in the source. -/
inductive PositionSide where
  | long
  | short
deriving DecidableEq, Repr

/-- Trade direction, `'buy' | 'sell'` in the source. -/
inductive TradeDirection where
  | buy
  | sell
deriving DecidableEq, Repr

/-- Order status, `'created' | 'submitted' | 'partial-filled' | 'filled' | 'canceled'`. -/
inductive OrderStatus where
  | created
  | submitted
  | partFilled
  | filled
  | canceled
deriving DecidableEq, Repr

/-- Delivery status of a trade result, `'ND' | 'DL'` in the source. -/
inductive DeliveryStatus where
  | nd
  | dl
deriving DecidableEq, Repr

/-- A row of `sys_op_live_accounts`. -/
structure Account where
  cash_amount : ℚ
  available_cash : ℚ
deriving DecidableEq, Repr

/-- A row of `sys_op_positions`. -/
structure Position where
  account_id : ℕ
  symbol : String
  position : PositionSide
  qty : ℚ
  available_qty : ℚ
deriving DecidableEq, Repr

/-- A row of `sys_op_trade_orders`.  `submitted_time` is modelled as an abstract
integer timestamp. -/
structure TradeOrder where
  pos_id : ℕ
  direction : TradeDirection
  qty : ℚ
  price : ℚ
  status : OrderStatus
  submitted_time : Option ℤ
deriving DecidableEq, Repr

/-- A row of `sys_op_trade_results`.  `execution_day` models the date part of
`execution_time` as a day number. -/
structure TradeResult where
  order_id : ℕ
  filled_qty : ℚ
  price : ℚ
  transaction_fee : ℚ
  canceled_qty : ℚ
  delivery_amount : ℚ
  delivery_status : DeliveryStatus
  execution_day : ℤ
deriving DecidableEq, Repr

/-- The four system tables of the data source, plus auto-increment counters
for the tables the embedded operations insert into. -/
structure LedgerState where
  accounts : List (ℕ × Account)
  positions : List (ℕ × Position)
  orders : List (ℕ × TradeOrder)
  results : List (ℕ × TradeResult)
  next_account_id : ℕ
  next_result_id : ℕ
deriving DecidableEq, Repr

/-- `read_sys_table_data` with a `record_id`: first record with the given id. -/
def lookupId {α : Type} : List (ℕ × α) → ℕ → Option α
  | [], _ => none
  | p :: l, id => if p.1 = id then some p.2 else lookupId l id

/-- `update_sys_table_data` on one table: rewrite the record with the given id. -/
def updateAssoc {α : Type} (l : List (ℕ × α)) (id : ℕ) (f : α → α) : List (ℕ × α) :=
  l.map (fun p => if p.1 = id then (p.1, f p.2) else p)

/-- `new_account` (trading.py:527): reject non-positive cash, otherwise insert an
account whose `available_cash` equals its `cash_amount` and return the new id. -/
def new_account (st : LedgerState) (cash_amount : ℚ) :
    LedgerState × Option String × Option ℕ :=
  if cash_amount ≤ 0 then
    (st, some "cash_amount must be positive", none)
  else
    let acct : Account := { cash_amount := cash_amount, available_cash := cash_amount }
    ({ st with
        accounts := st.accounts ++ [(st.next_account_id, acct)],
        next_account_id := st.next_account_id + 1 },
     none, some st.next_account_id)

/-- `update_account_balance` (trading.py:622): re-read the account, apply the two
deltas, validate `available_cash ≤ cash_amount`, `available_cash ≥ 0` and
`cash_amount ≥ 0`, and only then write. -/
def update_account_balance (st : LedgerState) (account_id : ℕ)
    (cash_amount_change available_cash_change : ℚ) : LedgerState × Option String :=
  match lookupId st.accounts account_id with
  | none => (st, some "Account not found")
  | some a =>
    let cash_amount := a.cash_amount + cash_amount_change
    let available_cash := a.available_cash + available_cash_change
    if available_cash > cash_amount then
      (st, some "available_cash cannot be greater than cash_amount")
    else if available_cash < 0 then
      (st, some "available_cash cannot be less than 0")
    else if cash_amount < 0 then
      (st, some "cash_amount cannot be less than 0")
    else
      let a2 : Account := { cash_amount := cash_amount, available_cash := available_cash }
      ({ st with accounts := updateAssoc st.accounts account_id (fun _ => a2) }, none)

/-- `update_position` (trading.py:811): re-read the position, apply the two deltas,
validate `available_qty ≤ qty`, `available_qty ≥ 0` and `qty ≥ 0`, and only then
write back the full record. -/
def update_position (st : LedgerState) (position_id : ℕ)
    (qty_change available_qty_change : ℚ) : LedgerState × Option String :=
  match lookupId st.positions position_id with
  | none => (st, some "position not found")
  | some p =>
    let qty := p.qty + qty_change
    let available_qty := p.available_qty + available_qty_change
    if available_qty > qty then
      (st, some "available_qty cannot be greater than qty")
    else if available_qty < 0 then
      (st, some "available_qty cannot be less than 0")
    else if qty < 0 then
      (st, some "qty cannot be less than 0")
    else
      let p2 : Position := { p with qty := qty, available_qty := available_qty }
      ({ st with positions := updateAssoc st.positions position_id (fun _ => p2) }, none)

/-- The per-record ledger invariant of spec section 3: every account satisfies
`0 ≤ available_cash ≤ cash_amount` and every position satisfies
`0 ≤ available_qty ≤ qty`. -/
def LedgerInv (st : LedgerState) : Prop :=
  (∀ p ∈ st.accounts, 0 ≤ p.2.available_cash ∧ p.2.available_cash ≤ p.2.cash_amount) ∧
  (∀ p ∈ st.positions, 0 ≤ p.2.available_qty ∧ p.2.available_qty ≤ p.2.qty)

/-- The delivery-period configuration consumed by `process_trade_delivery`
(`stock_delivery_period` for buys, `cash_delivery_period` for sells). -/
structure TradeConfig where
  stock_delivery_period : ℤ
  cash_delivery_period : ℤ
deriving DecidableEq, Repr

/-- A raw trade result as delivered by the venue (no execution time,
delivery amount or delivery status yet). -/
structure RawTradeResult where
  order_id : ℕ
  filled_qty : ℚ
  price : ℚ
  transaction_fee : ℚ
  canceled_qty : ℚ
deriving DecidableEq, Repr

/-- `update_trade_order` (trading.py:1152): status updates follow the order state
machine; `created -> submitted` also sets `submitted_time` and rewrites `qty`;
any other combination is a silent no-op unless `raise_if_status_wrong` is set.
Returns the new state, the raised error if any, and the written order id. -/
def update_trade_order (st : LedgerState) (order_id : ℕ) (status : Option OrderStatus)
    (qty : Option ℚ) (raise_if_status_wrong : Bool) (now : ℤ) :
    LedgerState × Option String × Option ℕ :=
  match status with
  | none => (st, none, none)
  | some s =>
    match lookupId st.orders order_id with
    | none => (st, some "Trade signal not found", none)
    | some o =>
      if o.status = .created ∧ s = .submitted then
        match qty with
        | some q =>
          if q < 0 then (st, some "qty must be greater than or equal to 0", none)
          else
            let orders2 := updateAssoc st.orders order_id
              (fun o0 => { o0 with submitted_time := some now, status := s, qty := q })
            ({ st with orders := orders2 }, none, some order_id)
        | none =>
          let orders2 := updateAssoc st.orders order_id
            (fun o0 => { o0 with submitted_time := some now, status := s, qty := o.qty })
          ({ st with orders := orders2 }, none, some order_id)
      else if o.status = .submitted ∧ (s = .canceled ∨ s = .partFilled ∨ s = .filled) then
        let orders2 := updateAssoc st.orders order_id (fun o0 => { o0 with status := s })
        ({ st with orders := orders2 }, none, some order_id)
      else if o.status = .partFilled ∧ (s = .canceled ∨ s = .filled) then
        let orders2 := updateAssoc st.orders order_id (fun o0 => { o0 with status := s })
        ({ st with orders := orders2 }, none, some order_id)
      else if raise_if_status_wrong then
        (st, some "Wrong status update", none)
      else
        (st, none, none)

/-- `submit_order` (trading.py:1426): only a `created` order is submitted; an
insufficient available resource only yields a warning (the `Bool` component)
and never blocks the submission. -/
def submit_order (st : LedgerState) (order_id : ℕ) (now : ℤ) :
    LedgerState × Option String × Bool × Option ℕ :=
  match lookupId st.orders order_id with
  | none => (st, some "order not found", false, none)
  | some o =>
    if o.status ≠ .created then
      (st, none, false, none)
    else
      match lookupId st.positions o.pos_id with
      | none => (st, some "Position not found", false, none)
      | some pos =>
        match o.direction with
        | .buy =>
          match lookupId st.accounts pos.account_id with
          | none => (st, some "Account not found", false, none)
          | some a =>
            let warn := a.available_cash < o.qty * o.price
            let r := update_trade_order st order_id (some .submitted) none false now
            (r.1, r.2.1, warn, r.2.2)
        | .sell =>
          let warn := pos.available_qty < o.qty
          let r := update_trade_order st order_id (some .submitted) none false now
          (r.1, r.2.1, warn, r.2.2)

/-- `write_trade_result` (trading.py:1488): validate the numeric fields, then
append the result row and return its id. -/
def write_trade_result (st : LedgerState) (r : TradeResult) :
    LedgerState × Option String × Option ℕ :=
  if r.order_id = 0 then (st, some "order_id can not be less than or equal to 0", none)
  else if r.filled_qty < 0 then (st, some "filled_qty can not be less than 0", none)
  else if r.price < 0 then (st, some "price can not be less than 0", none)
  else if r.transaction_fee < 0 then (st, some "transaction_fee can not be less than 0", none)
  else if r.canceled_qty < 0 then (st, some "canceled_qty can not be less than 0", none)
  else
    let results2 := st.results ++ [(st.next_result_id, r)]
    ({ st with results := results2, next_result_id := st.next_result_id + 1 },
     none, some st.next_result_id)

/-- `update_trade_result` (trading.py:1558): rewrite the delivery status of one
trade result. -/
def update_trade_result (st : LedgerState) (result_id : ℕ) (status : DeliveryStatus) :
    LedgerState :=
  { st with
      results := updateAssoc st.results result_id
        (fun r => { r with delivery_status := status }) }

/-- `read_trade_order_detail` (trading.py:1311): the order joined with its
position (whose `account_id` the callers use); `none` when either the order or
its position is missing, which every caller turns into a raised error. -/
def read_trade_order_detail (st : LedgerState) (order_id : ℕ) :
    Option (TradeOrder × Position) :=
  match lookupId st.orders order_id with
  | none => none
  | some o =>
    match lookupId st.positions o.pos_id with
    | none => none
    | some p => some (o, p)

/-- Summed `filled_qty` of the result rows whose `order_id` matches. -/
def sum_filled_list (order_id : ℕ) : List (ℕ × TradeResult) → ℚ
  | [] => 0
  | p :: l =>
    (if p.2.order_id = order_id then p.2.filled_qty else 0) + sum_filled_list order_id l

/-- `trade_results['filled_qty'].sum()` over `read_trade_results_by_order_id`
(trading.py:1790): total previously filled quantity of an order. -/
def sum_filled_qty (st : LedgerState) (order_id : ℕ) : ℚ :=
  sum_filled_list order_id st.results

/-- The delivery delay applicable to a fill (trading.py:1716-1719):
`stock_delivery_period` for buys, `cash_delivery_period` for sells. -/
def applicable_period (config : TradeConfig) : TradeDirection → ℤ
  | .buy => config.stock_delivery_period
  | .sell => config.cash_delivery_period

/-- One iteration of the `process_trade_delivery` loop (trading.py:1707):
skip fills of other accounts and fills whose delivery period has not elapsed;
otherwise release the reserved quantity (buy) or cash (sell) and flip the
fill's delivery status to delivered. -/
def deliver_one (account_id : ℕ) (config : TradeConfig) (current_day : ℤ)
    (st : LedgerState) (entry : ℕ × TradeResult) : LedgerState × Option String :=
  match read_trade_order_detail st entry.2.order_id with
  | none => (st, some "No order_detail found for order_id")
  | some (od, pos) =>
    if pos.account_id ≠ account_id then (st, none)
    else
      if current_day - entry.2.execution_day < applicable_period config od.direction then
        (st, none)
      else
        let step := match od.direction with
          | .buy => update_position st od.pos_id 0 entry.2.delivery_amount
          | .sell => update_account_balance st pos.account_id 0 entry.2.delivery_amount
        match step with
        | (st1, some e) => (st1, some e)
        | (st1, none) => (update_trade_result st1 entry.1 .dl, none)

/-- The `for result_id, result in undelivered_results.iterrows()` loop of
`process_trade_delivery`, iterating over a snapshot of the not-delivered
results and threading the evolving state; a raised error aborts the loop. -/
def deliver_loop (account_id : ℕ) (config : TradeConfig) (current_day : ℤ) :
    LedgerState → List (ℕ × TradeResult) → LedgerState × Option String
  | st, [] => (st, none)
  | st, e :: rest =>
    match deliver_one account_id config current_day st e with
    | (st1, some err) => (st1, some err)
    | (st1, none) => deliver_loop account_id config current_day st1 rest

/-- `process_trade_delivery` (trading.py:1672): deliver every eligible
not-delivered fill of the given account. -/
def process_trade_delivery (st : LedgerState) (account_id : ℕ) (config : TradeConfig)
    (current_day : ℤ) : LedgerState × Option String :=
  deliver_loop account_id config current_day st
    (st.results.filter (fun p => decide (p.2.delivery_status = .nd)))

/-- The `cash_change` of `process_trade_result` (trading.py:1818-1821): signed
priced fill net of the transaction fee. -/
def fill_cash_change (od : TradeOrder) (raw : RawTradeResult) : ℚ :=
  match od.direction with
  | .sell => raw.filled_qty * raw.price - raw.transaction_fee
  | .buy => - raw.filled_qty * raw.price - raw.transaction_fee

/-- The `delivery_amount` of a new fill (trading.py:1836-1839): the position
delta for a buy, the cash delta for a sell. -/
def fill_delivery_amount (od : TradeOrder) (raw : RawTradeResult) : ℚ :=
  match od.direction with
  | .buy => raw.filled_qty
  | .sell => fill_cash_change od raw

/-- The trade-result row persisted by `process_trade_result`
(trading.py:1836-1846), not yet delivered, stamped with the execution day. -/
def fill_trade_result (od : TradeOrder) (raw : RawTradeResult) (today : ℤ) : TradeResult :=
  { order_id := raw.order_id, filled_qty := raw.filled_qty, price := raw.price,
    transaction_fee := raw.transaction_fee, canceled_qty := raw.canceled_qty,
    delivery_amount := fill_delivery_amount od raw, delivery_status := .nd,
    execution_day := today }

/-- The tail of `process_trade_result` (trading.py:1816): position/cash deltas,
availability checks, persisting the new result, ledger updates and the final
status update of the order. -/
def settle_trade_result (st1 : LedgerState) (order_id : ℕ) (od : TradeOrder)
    (account_id : ℕ) (raw : RawTradeResult) (new_status : OrderStatus) (today : ℤ) :
    LedgerState × Option String :=
  match lookupId st1.positions od.pos_id with
  | none => (st1, some "Position not found")
  | some p1 =>
    if p1.available_qty + raw.filled_qty < 0 then
      (st1, some "position_change is greater than available position amount")
    else
      match lookupId st1.accounts account_id with
      | none => (st1, some "Account not found")
      | some a1 =>
        if a1.available_cash + fill_cash_change od raw < 0 then
          (st1, some "cash_change is greater than available cash")
        else
          match write_trade_result st1 (fill_trade_result od raw today) with
          | (st2, some e, _) => (st2, some e)
          | (st2, none, _) =>
            match od.direction with
            | .buy =>
              match update_account_balance st2 account_id (fill_cash_change od raw)
                  (fill_cash_change od raw) with
              | (st3, some e) => (st3, some e)
              | (st3, none) =>
                match update_position st3 od.pos_id raw.filled_qty 0 with
                | (st4, some e) => (st4, some e)
                | (st4, none) =>
                  let r := update_trade_order st4 order_id (some new_status) none false today
                  (r.1, r.2.1)
            | .sell =>
              match update_account_balance st2 account_id (fill_cash_change od raw) 0 with
              | (st3, some e) => (st3, some e)
              | (st3, none) =>
                match update_position st3 od.pos_id (-raw.filled_qty) (-raw.filled_qty) with
                | (st4, some e) => (st4, some e)
                | (st4, none) =>
                  let r := update_trade_order st4 order_id (some new_status) none false today
                  (r.1, r.2.1)

/-- `process_trade_result` (trading.py:1752): reject fills on terminal or
unsubmitted orders, run settlement for the account, compute the remaining
quantity, derive the new order status (cancel / filled / partial), then apply
the ledger side effects via `settle_trade_result`. -/
def process_trade_result (st : LedgerState) (raw : RawTradeResult) (config : TradeConfig)
    (today : ℤ) : LedgerState × Option String :=
  match read_trade_order_detail st raw.order_id with
  | none => (st, some "order detail not found")
  | some (od, pos) =>
    if od.status = .created ∨ od.status = .filled ∨ od.status = .canceled then
      (st, some "signal has already been filled or canceled")
    else
      match process_trade_delivery st pos.account_id config today with
      | (st1, some e) => (st1, some e)
      | (st1, none) =>
        let remaining_qty := od.qty - sum_filled_qty st1 raw.order_id
        if raw.canceled_qty > 0 then
          if raw.canceled_qty ≠ remaining_qty then
            (st1, some "canceled_qty does not match remaining_qty")
          else
            settle_trade_result st1 raw.order_id od pos.account_id raw .canceled today
        else if raw.filled_qty > remaining_qty then
          (st1, some "filled_qty is greater than remaining_qty")
        else if raw.filled_qty = remaining_qty then
          settle_trade_result st1 raw.order_id od pos.account_id raw .filled today
        else
          settle_trade_result st1 raw.order_id od pos.account_id raw .partFilled today

/-- A one-account, one-position ledger with a submitted buy order for 100
shares at price 100 (the start of Scenario D). -/
def scenario_d_ledger : LedgerState :=
  ⟨[(1, ⟨100000, 100000⟩)], [(1, ⟨1, "X", .long, 0, 0⟩)],
   [(1, ⟨1, .buy, 100, 100, .submitted, some 0⟩)], [], 2, 1⟩

/-- Scenario D after the first 40-share fill on day 0. -/
def scenario_d_after_first : LedgerState :=
  (process_trade_result scenario_d_ledger ⟨1, 40, 100, 0, 0⟩ ⟨1, 1⟩ 0).1

/-- A ledger holding a partially filled buy order and its not-yet-delivered
40-share fill executed on day 0 (Scenario E, and the pending-delivery state
for the fill-processing counterexample). -/
def pending_fill_ledger : LedgerState :=
  ⟨[(1, ⟨100000, 100000⟩)], [(1, ⟨1, "X", .long, 40, 0⟩)],
   [(1, ⟨1, .buy, 100, 100, .partFilled, some 0⟩)],
   [(1, ⟨1, 40, 100, 0, 0, 40, .nd, 0⟩)], 2, 2⟩

/-- One order intent: an entry of the four parallel output lists
`(symbols, positions, directions, quantities)` of the signal translator. -/
structure OrderIntent where
  symbol : String
  position : PositionSide
  direction : TradeDirection
  qty : ℚ
deriving DecidableEq, Repr

/-- The signal-parsing configuration (`pt_buy_threshold`, `pt_sell_threshold`,
`allow_sell_short`). -/
structure SignalConfig where
  pt_buy_threshold : ℚ
  pt_sell_threshold : ℚ
  allow_sell_short : Bool
deriving DecidableEq, Repr

/-- Elementwise combination of three lists, the shape of the `np.where`
computations over the aligned signal/price/holding arrays. -/
def zipWith3 {α β γ δ : Type} (f : α → β → γ → δ) : List α → List β → List γ → List δ
  | a :: as0, b :: bs, c :: cs => f a b c :: zipWith3 f as0 bs cs
  | _, _, _ => []

/-- Round-half-to-even to an integer, the rounding mode of `np.round`. -/
def round_half_even (x : ℚ) : ℤ :=
  let n := ⌊x⌋
  let r := x - n
  if r < 1 / 2 then n
  else if r > 1 / 2 then n + 1
  else if n % 2 = 0 then n else n + 1

/-- `np.round(x, 3)`: round to three decimal places, half to even. -/
def round3 (x : ℚ) : ℚ := (round_half_even (x * 1000) : ℚ) / 1000

/-- Total equity `np.sum(prices * own_amounts) + own_cash` (trading.py:294). -/
def total_value_of (prices own_amounts : List ℚ) (own_cash : ℚ) : ℚ :=
  (List.zipWith (fun a b => a * b) prices own_amounts).sum + own_cash

/-- The per-symbol `cash_to_spend` entry of `parse_pt_signals` (trading.py:307
and 314): long-open when the allocation gap exceeds the buy threshold on a
non-short holding, plus (short selling allowed) short-open when the gap is
below the negative sell threshold on a non-long holding. -/
def pt_cash_to_spend (total_value ptbt ptst : ℚ) (allow_sell_short : Bool)
    (sig price own : ℚ) : ℚ :=
  let previous_pos := own * price / total_value
  let position_diff := sig - previous_pos
  (if position_diff > ptbt ∧ own ≥ 0 then position_diff * total_value else 0) +
    (if allow_sell_short ∧ position_diff < ptst ∧ own ≤ 0 then
      position_diff * total_value
    else 0)

/-- The per-symbol `amounts_to_sell` entry of `parse_pt_signals` (trading.py:303
and 318): long-close when the allocation gap is below the negative sell
threshold on a long holding, plus (short selling allowed) short-close when the
gap exceeds the buy threshold on a short holding. -/
def pt_amounts_to_sell (total_value ptbt ptst : ℚ) (allow_sell_short : Bool)
    (sig price own : ℚ) : ℚ :=
  let previous_pos := own * price / total_value
  let position_diff := sig - previous_pos
  (if position_diff < ptst ∧ own > 0 then position_diff / previous_pos * own else 0) +
    (if allow_sell_short ∧ position_diff > ptbt ∧ own < 0 then
      position_diff / previous_pos * own
    else 0)

/-- `parse_pt_signals` (trading.py:260): the pair of `cash_to_spend` and
`amounts_to_sell` vectors derived from PT signals.  `ptst` is passed to the
per-symbol functions already negated (`ptst = -pt_sell_threshold`), as in the
source. -/
def parse_pt_signals (signals prices own_amounts : List ℚ) (own_cash : ℚ)
    (pt_buy_threshold pt_sell_threshold : ℚ) (allow_sell_short : Bool) :
    List ℚ × List ℚ :=
  let total_value := total_value_of prices own_amounts own_cash
  (zipWith3 (pt_cash_to_spend total_value pt_buy_threshold (-pt_sell_threshold)
      allow_sell_short) signals prices own_amounts,
   zipWith3 (pt_amounts_to_sell total_value pt_buy_threshold (-pt_sell_threshold)
      allow_sell_short) signals prices own_amounts)

/-- The cash clamp at the head of `itemize_trade_signals` (trading.py:447):
when the summed `cash_to_spend` exceeds the available cash, every entry is
scaled by `available_cash / total`. -/
def clamp_cash (cash_to_spend : List ℚ) (available_cash : ℚ) : List ℚ :=
  let total := cash_to_spend.sum
  if total > available_cash then
    cash_to_spend.map (fun x => x * available_cash / total)
  else cash_to_spend

/-- The body of the `for i, sym in enumerate(shares)` loop of
`itemize_trade_signals` (trading.py:457): zero to four intents for one symbol,
in source order (long buy, short buy, long sell with optional split, short
sell with split). -/
def itemize_one (allow_sell_short : Bool) (sym : String) (c s price avail : ℚ) :
    List OrderIntent :=
  (if c > 1 / 1000 then [⟨sym, .long, .buy, c / price⟩] else []) ++
  (if c < -(1 / 1000) ∧ allow_sell_short then [⟨sym, .short, .buy, -c / price⟩] else []) ++
  (if s < -(1 / 1000) then
    (if s < -avail then
      ⟨sym, .long, .sell, avail⟩ ::
        (if allow_sell_short then [⟨sym, .short, .buy, -s - avail⟩] else [])
    else [⟨sym, .long, .sell, -s⟩])
  else []) ++
  (if s > 1 / 1000 ∧ allow_sell_short then
    (if s > avail then
      [⟨sym, .short, .sell, -avail⟩, ⟨sym, .long, .buy, s + avail⟩]
    else [⟨sym, .short, .sell, s⟩])
  else [])

/-- The symbol loop of `itemize_trade_signals`, walking the five parallel
lists in lockstep. -/
def itemize_loop (allow_sell_short : Bool) :
    List String → List ℚ → List ℚ → List ℚ → List ℚ → List OrderIntent
  | sym :: syms, c :: cs, s :: ss, p :: ps, av :: avs =>
    itemize_one allow_sell_short sym c s p av ++
      itemize_loop allow_sell_short syms cs ss ps avs
  | _, _, _, _, _ => []

/-- `itemize_trade_signals` (trading.py:407): clamp the buy amounts against the
available cash, then emit the per-symbol order intents. -/
def itemize_trade_signals (shares : List String) (cash_to_spend amounts_to_sell
    prices : List ℚ) (available_cash : ℚ) (available_amounts : List ℚ)
    (allow_sell_short : Bool) : List OrderIntent :=
  itemize_loop allow_sell_short shares (clamp_cash cash_to_spend available_cash)
    amounts_to_sell prices available_amounts

/-- The PT path of `parse_trade_signal` (trading.py:132): parse the PT signals,
round to three decimals, clamp the total planned buy amount against `own_cash`,
then itemize against the available cash and quantities. -/
def parse_trade_signal_pt (signals : List ℚ) (shares : List String)
    (prices own_amounts : List ℚ) (own_cash : ℚ) (available_amounts : List ℚ)
    (available_cash : ℚ) (config : SignalConfig) : List OrderIntent :=
  let parsed := parse_pt_signals signals prices own_amounts own_cash
    config.pt_buy_threshold config.pt_sell_threshold config.allow_sell_short
  let cash_to_spend := parsed.1.map round3
  let amounts_to_sell := parsed.2.map round3
  let total_cash_to_spend := cash_to_spend.sum
  let cash_to_spend :=
    if total_cash_to_spend > own_cash then
      cash_to_spend.map (fun x => x * own_cash / total_cash_to_spend)
    else cash_to_spend
  itemize_trade_signals shares cash_to_spend amounts_to_sell prices available_cash
    available_amounts config.allow_sell_short

/-- The record rewrite performed by `update_trade_order` on a
`created -> submitted` transition. -/
def submitted_order (now : ℤ) (q : ℚ) (o0 : TradeOrder) : TradeOrder :=
  { o0 with submitted_time := some now, status := .submitted, qty := q }

/-- The state written by a successful submission. -/
def submit_write (st : LedgerState) (order_id : ℕ) (now : ℤ) (q : ℚ) : LedgerState :=
  { st with orders := updateAssoc st.orders order_id (submitted_order now q) }

/-- The order state machine of spec section 4.3: the only permitted status
transitions. -/
def legal_transition : OrderStatus → OrderStatus → Bool
  | .created, .submitted => true
  | .submitted, .canceled => true
  | .submitted, .partFilled => true
  | .submitted, .filled => true
  | .partFilled, .canceled => true
  | .partFilled, .filled => true
  | _, _ => false

/-- One logged call to `update_trade_order`. -/
structure OrderUpdateCall where
  order_id : ℕ
  status : Option OrderStatus
  qty : Option ℚ
  strict : Bool
  now : ℤ

/-- A sequence of `update_trade_order` calls threaded through the ledger. -/
def run_order_updates (st : LedgerState) (calls : List OrderUpdateCall) : LedgerState :=
  calls.foldl
    (fun s c => (update_trade_order s c.order_id c.status c.qty c.strict c.now).1) st

/-- One operation of the submit / fill / settle vocabulary of spec section 8. -/
inductive TradeOp where
  | submit (order_id : ℕ) (now : ℤ)
  | fill (raw : RawTradeResult) (config : TradeConfig) (today : ℤ)
  | settle (account_id : ℕ) (config : TradeConfig) (today : ℤ)

/-- The ledger state reached after one operation (the state component is kept
even when the operation raises, matching the partially updated database). -/
def apply_trade_op (st : LedgerState) : TradeOp → LedgerState
  | .submit oid now => (submit_order st oid now).1
  | .fill raw config today => (process_trade_result st raw config today).1
  | .settle aid config today => (process_trade_delivery st aid config today).1

/-- A sequence of submit / fill / settle operations threaded through the ledger. -/
def run_trade_ops (st : LedgerState) (ops : List TradeOp) : LedgerState :=
  ops.foldl apply_trade_op st

theorem lookupId_updateAssoc_self {α : Type} (l : List (ℕ × α)) (id : ℕ) (f : α → α) :
    lookupId (updateAssoc l id f) id = (lookupId l id).map f := by
  induction l with
  | nil => rfl
  | cons hd tl ih =>
    by_cases h : hd.1 = id
    · simp [updateAssoc, lookupId, h] at ih ⊢
    · simp only [updateAssoc, List.map_cons, if_neg h, lookupId, updateAssoc] at ih ⊢
      exact ih

theorem lookupId_updateAssoc_ne {α : Type} (l : List (ℕ × α)) (id j : ℕ) (f : α → α)
    (h : j ≠ id) : lookupId (updateAssoc l id f) j = lookupId l j := by
  induction l with
  | nil => rfl
  | cons hd tl ih =>
    by_cases hid : hd.1 = id
    · have hj : hd.1 ≠ j := by omega
      simp only [updateAssoc, List.map_cons, if_pos hid, lookupId, updateAssoc] at ih ⊢
      rw [if_neg (by omega : ¬ (hd.1 = j)), if_neg hj]
      exact ih
    · simp only [updateAssoc, List.map_cons, if_neg hid, lookupId, updateAssoc] at ih ⊢
      by_cases hj : hd.1 = j
      · rw [if_pos hj, if_pos hj]
      · rw [if_neg hj, if_neg hj]
        exact ih

theorem mem_updateAssoc {α : Type} {l : List (ℕ × α)} {id : ℕ} {f : α → α}
    {q : ℕ × α} (hq : q ∈ updateAssoc l id f) :
    (∃ p, p ∈ l ∧ q = (p.1, f p.2)) ∨ q ∈ l := by
  rcases List.mem_map.mp hq with ⟨p, hp, hpq⟩
  by_cases h : p.1 = id
  · exact Or.inl ⟨p, hp, by rw [← hpq, if_pos h]⟩
  · exact Or.inr (by rw [← hpq, if_neg h]; exact hp)

theorem update_account_balance_inv {st : LedgerState} {aid : ℕ} {dc dac : ℚ}
    (h : LedgerInv st) : LedgerInv (update_account_balance st aid dc dac).1 := by
  unfold update_account_balance
  cases hl : lookupId st.accounts aid with
  | none => exact h
  | some a =>
    simp only
    split_ifs with h1 h2 h3
    · exact h
    · exact h
    · exact h
    · refine ⟨?_, h.2⟩
      intro p hp
      dsimp only at hp
      rcases mem_updateAssoc hp with ⟨q, _, rfl⟩ | hmem
      · refine ⟨?_, ?_⟩ <;> dsimp only <;> linarith
      · exact h.1 p hmem

theorem update_position_inv {st : LedgerState} {pid : ℕ} {dq daq : ℚ}
    (h : LedgerInv st) : LedgerInv (update_position st pid dq daq).1 := by
  unfold update_position
  cases hl : lookupId st.positions pid with
  | none => exact h
  | some p0 =>
    simp only
    split_ifs with h1 h2 h3
    · exact h
    · exact h
    · exact h
    · refine ⟨h.1, ?_⟩
      intro p hp
      dsimp only at hp
      rcases mem_updateAssoc hp with ⟨q, _, rfl⟩ | hmem
      · refine ⟨?_, ?_⟩ <;> dsimp only <;> linarith
      · exact h.2 p hmem

theorem getElem?_zipWith3 {α β γ δ : Type} (f : α → β → γ → δ) :
    ∀ (as0 : List α) (bs : List β) (cs : List γ) (i : ℕ) (a : α) (b : β) (c : γ),
      as0[i]? = some a → bs[i]? = some b → cs[i]? = some c →
      (zipWith3 f as0 bs cs)[i]? = some (f a b c) := by
  intro as0
  induction as0 with
  | nil => intro bs cs i a b c ha; simp at ha
  | cons x xs ih =>
    intro bs cs i a b c ha hb hc
    cases bs with
    | nil => simp at hb
    | cons y ys =>
      cases cs with
      | nil => simp at hc
      | cons z zs =>
        cases i with
        | zero =>
          simp only [List.getElem?_cons_zero, Option.some.injEq] at ha hb hc
          subst ha; subst hb; subst hc
          simp [zipWith3]
        | succ n =>
          simp only [List.getElem?_cons_succ] at ha hb hc
          simpa [zipWith3] using ih ys zs n a b c ha hb hc

/-- C2 (amended): in PT mode, for every symbol whose allocation gap
(signal minus current fractional allocation) exceeds the buy threshold while
the holding is not short, `cash_to_spend = gap * total_equity`; and for every
symbol whose gap is below the (negative) sell threshold while the holding is
long, `amount_to_sell = gap / current_allocation * held_qty` (the code divides
the gap by the current fractional allocation before multiplying by the held
quantity; it is NOT `gap * held_qty`).  The `parse_pt_signals` vectors are
exactly these per-symbol values, and Scenario A holds: with cash 100000, price
100, held_qty 0, target 0.5 and threshold 0.05, the translator emits exactly
one buy intent with cash_to_spend 50000 and quantity 500. -/
theorem claim_C2 :
    (∀ (total_value ptbt ptst sig price own : ℚ) (allow : Bool),
      0 ≤ ptbt → 0 ≤ ptst →
      sig - own * price / total_value > ptbt → own ≥ 0 →
      pt_cash_to_spend total_value ptbt (-ptst) allow sig price own =
        (sig - own * price / total_value) * total_value) ∧
    (∀ (total_value ptbt ptst sig price own : ℚ) (allow : Bool),
      sig - own * price / total_value < -ptst → own > 0 →
      pt_amounts_to_sell total_value ptbt (-ptst) allow sig price own =
        (sig - own * price / total_value) / (own * price / total_value) * own) ∧
    (∀ (signals prices own_amounts : List ℚ) (own_cash ptbt ptst : ℚ) (allow : Bool)
      (i : ℕ) (sig price own : ℚ),
      signals[i]? = some sig → prices[i]? = some price → own_amounts[i]? = some own →
      (parse_pt_signals signals prices own_amounts own_cash ptbt ptst allow).1[i]? =
        some (pt_cash_to_spend (total_value_of prices own_amounts own_cash) ptbt (-ptst)
          allow sig price own) ∧
      (parse_pt_signals signals prices own_amounts own_cash ptbt ptst allow).2[i]? =
        some (pt_amounts_to_sell (total_value_of prices own_amounts own_cash) ptbt (-ptst)
          allow sig price own)) ∧
    parse_trade_signal_pt [1/2] ["X"] [100] [0] 100000 [0] 100000 ⟨1/20, 1/20, false⟩ =
      [⟨"X", PositionSide.long, TradeDirection.buy, 500⟩] ∧
    (parse_pt_signals [1/2] [100] [0] 100000 (1/20) (1/20) false).1 = [50000] := by
  refine ⟨?_, ?_, ?_, ?_, ?_⟩
  · intro total_value ptbt ptst sig price own allow hbt hst hgap hown
    have hnot : ¬ (sig - own * price / total_value < -ptst) := by
      push_neg
      linarith
    simp only [pt_cash_to_spend]
    rw [if_pos ⟨hgap, hown⟩, if_neg (by tauto)]
    ring
  · intro total_value ptbt ptst sig price own allow hgap hown
    have hnot : ¬ (own < 0) := by linarith
    simp only [pt_amounts_to_sell]
    rw [if_pos ⟨hgap, hown⟩, if_neg (by tauto)]
    ring
  · intro signals prices own_amounts own_cash ptbt ptst allow i sig price own hs hp ho
    exact ⟨getElem?_zipWith3 _ _ _ _ _ _ _ _ hs hp ho,
           getElem?_zipWith3 _ _ _ _ _ _ _ _ hs hp ho⟩
  · norm_num [parse_trade_signal_pt, parse_pt_signals, pt_cash_to_spend, pt_amounts_to_sell,
      total_value_of, zipWith3, round3, round_half_even, itemize_trade_signals, clamp_cash,
      itemize_loop, itemize_one]
  · norm_num [parse_pt_signals, pt_cash_to_spend, total_value_of, zipWith3]

/-- C2 counterexample: with holdings 100 at price 100 and cash 90000 (current
allocation 0.1, total equity 100000), a PT signal of 0 with sell threshold 0.05
makes the code sell 100 shares (`gap / previous_pos * held_qty = -100`), while
the claimed formula `gap * held_qty` predicts -10: the claim is false at this
input. -/
theorem claim_C2_counterexample :
    (parse_pt_signals [0] [100] [100] 90000 (1/20) (1/20) false).2 = [-100] ∧
    ((0 : ℚ) - 100 * 100 / (100 * 100 + 90000)) * 100 = -10 ∧
    (-100 : ℚ) ≠ -10 := by
  refine ⟨?_, by norm_num, by norm_num⟩
  norm_num [parse_pt_signals, pt_amounts_to_sell, pt_cash_to_spend, total_value_of, zipWith3]

/-- C3 (amended): the cash clamp in `itemize_trade_signals` triggers on the
signed sum of all `cash_to_spend` entries (negative short-open entries
included), not on the sum of the positive entries alone; when that signed sum
exceeds the available cash every entry is scaled by `available_cash / total`
before itemization; Scenario B (two requests of 80000 against available cash
100000 each scale to 50000) holds. -/
theorem claim_C3 (cash_to_spend : List ℚ) (available_cash : ℚ)
    (h : available_cash < cash_to_spend.sum) :
    clamp_cash cash_to_spend available_cash =
      cash_to_spend.map (fun x => x * available_cash / cash_to_spend.sum) ∧
    (∀ (shares : List String) (amounts_to_sell prices available_amounts : List ℚ)
      (allow : Bool),
      itemize_trade_signals shares cash_to_spend amounts_to_sell prices available_cash
        available_amounts allow =
      itemize_loop allow shares (clamp_cash cash_to_spend available_cash) amounts_to_sell
        prices available_amounts) ∧
    clamp_cash [80000, 80000] 100000 = [50000, 50000] := by
  refine ⟨?_, fun _ _ _ _ _ => rfl, by norm_num [clamp_cash]⟩
  simp only [clamp_cash]
  rw [if_pos h]

/-- C3 counterexample: `cash_to_spend = [80000, -40000]` with available cash
50000 and short selling enabled.  The sum of the positive entries (80000)
exceeds the available cash, so the claim demands uniform scaling by
50000/80000 (symbol A bought with 50000, i.e. 500 shares at price 100); the
code instead sums all entries (40000 <= 50000), skips the clamp, and buys
800 shares of A: the claim is false at this input. -/
theorem claim_C3_counterexample :
    itemize_trade_signals ["A", "B"] [80000, -40000] [0, 0] [100, 100] 50000 [0, 0] true =
      [⟨"A", PositionSide.long, TradeDirection.buy, 800⟩,
       ⟨"B", PositionSide.short, TradeDirection.buy, 400⟩] ∧
    (80000 : ℚ) * (50000 / 80000) / 100 = 500 ∧ (800 : ℚ) ≠ 500 := by
  refine ⟨?_, by norm_num, by norm_num⟩
  norm_num [itemize_trade_signals, clamp_cash, itemize_loop, itemize_one]

/-- C10: `new_account` raises on a non-positive initial `cash_amount` and
creates no record; otherwise it appends exactly one account record whose
`available_cash` equals its `cash_amount`, so `0 <= available_cash <=
cash_amount` holds from the moment of creation and the ledger invariant is
preserved. -/
theorem claim_C10 (st : LedgerState) (cash_amount : ℚ) :
    (cash_amount ≤ 0 →
      (new_account st cash_amount).2.1 ≠ none ∧ (new_account st cash_amount).1 = st) ∧
    (0 < cash_amount →
      (new_account st cash_amount).2.1 = none ∧
      (new_account st cash_amount).1.accounts =
        st.accounts ++ [(st.next_account_id,
          { cash_amount := cash_amount, available_cash := cash_amount })] ∧
      (0 : ℚ) ≤ cash_amount ∧
      (LedgerInv st → LedgerInv (new_account st cash_amount).1)) := by
  constructor
  · intro hle
    simp [new_account, if_pos hle]
  · intro hpos
    have hnle : ¬ cash_amount ≤ 0 := by linarith
    refine ⟨by simp [new_account, if_neg hnle], by simp [new_account, if_neg hnle],
      le_of_lt hpos, ?_⟩
    intro hinv
    simp only [new_account, if_neg hnle]
    refine ⟨?_, hinv.2⟩
    intro p hp
    simp only [List.mem_append, List.mem_singleton] at hp
    rcases hp with hp | hp
    · exact hinv.1 p hp
    · subst hp
      exact ⟨le_of_lt hpos, le_refl _⟩

/-- C10 witness: both branches of `claim_C10` at a concrete ledger. -/
theorem claim_C10_witness :
    ((-5 : ℚ) ≤ 0 ∧
      (new_account ⟨[], [], [], [], 1, 1⟩ (-5)).2.1 ≠ none ∧
      (new_account ⟨[], [], [], [], 1, 1⟩ (-5)).1 = ⟨[], [], [], [], 1, 1⟩) ∧
    ((0 : ℚ) < 100000 ∧
      (new_account ⟨[], [], [], [], 1, 1⟩ 100000).2.1 = none ∧
      (new_account ⟨[], [], [], [], 1, 1⟩ 100000).1.accounts =
        [(1, { cash_amount := (100000 : ℚ), available_cash := (100000 : ℚ) })]) := by
  constructor
  · exact ⟨by norm_num, (claim_C10 ⟨[], [], [], [], 1, 1⟩ (-5)).1 (by norm_num)⟩
  · refine ⟨by norm_num, ?_, ?_⟩
    · exact ((claim_C10 ⟨[], [], [], [], 1, 1⟩ 100000).2 (by norm_num)).1
    · exact ((claim_C10 ⟨[], [], [], [], 1, 1⟩ 100000).2 (by norm_num)).2.1

/-- C2 witness: the buy and sell branches of `claim_C2` at concrete inputs
(Scenario A for the buy side; allocation 0.1, signal 0 for the sell side). -/
theorem claim_C2_witness :
    pt_cash_to_spend 100000 (1/20) (-(1/20)) false (1/2) 100 0 =
      ((1:ℚ)/2 - 0 * 100 / 100000) * 100000 ∧
    pt_amounts_to_sell 100000 (1/20) (-(1/20)) false 0 100 100 =
      ((0:ℚ) - 100 * 100 / 100000) / (100 * 100 / 100000) * 100 := by
  constructor
  · exact claim_C2.1 100000 (1/20) (1/20) (1/2) 100 0 false (by norm_num) (by norm_num)
      (by norm_num) (by norm_num)
  · exact claim_C2.2.1 100000 (1/20) (1/20) 0 100 100 false (by norm_num) (by norm_num)

/-- C3 witness: `claim_C3` applied to Scenario B (two 80000 requests against
100000 of available cash are scaled to 50000 each). -/
theorem claim_C3_witness :
    (100000 : ℚ) < ([(80000 : ℚ), 80000]).sum ∧
    clamp_cash [80000, 80000] 100000 =
      [(80000 : ℚ) * 100000 / 160000, (80000 : ℚ) * 100000 / 160000] ∧
    clamp_cash [80000, 80000] 100000 = [50000, 50000] := by
  have h : (100000 : ℚ) < ([(80000 : ℚ), 80000]).sum := by norm_num
  have hc := claim_C3 [80000, 80000] 100000 h
  refine ⟨h, ?_, hc.2.2⟩
  rw [hc.1]
  norm_num

/-- C9: during itemization, for a symbol whose requested long-sell magnitude
exceeds the available quantity: with short selling disabled the symbol emits
exactly one sell intent, capped at the available quantity, and no short-side
intent at all; with short selling enabled (and no simultaneous short-open
request) it emits the capped sell plus a short-side buy of the shortfall. -/
theorem claim_C9 (sym : String) (c s price avail : ℚ)
    (hs : s < -(1 / 1000)) (hx : s < -avail) (hav : 0 ≤ avail) :
    ((itemize_one false sym c s price avail).filter
        (fun it => decide (it.direction = .sell)) =
      [⟨sym, .long, .sell, avail⟩] ∧
     (itemize_one false sym c s price avail).filter
        (fun it => decide (it.position = .short)) = []) ∧
    (¬ c < -(1 / 1000) →
      (itemize_one true sym c s price avail).filter
          (fun it => decide (it.direction = .sell)) =
        [⟨sym, .long, .sell, avail⟩] ∧
      (itemize_one true sym c s price avail).filter
          (fun it => decide (it.position = .short)) =
        [⟨sym, .short, .buy, -s - avail⟩]) := by
  have hs2 : ¬ (s > 1 / 1000) := by linarith
  constructor
  · constructor
    · simp only [itemize_one, if_pos hs, if_pos hx, List.filter_append]
      split_ifs <;> simp_all <;> linarith
    · simp only [itemize_one, if_pos hs, if_pos hx, List.filter_append]
      split_ifs <;> simp_all <;> linarith
  · intro hc
    constructor
    · simp only [itemize_one, if_pos hs, if_pos hx, List.filter_append]
      split_ifs <;> simp_all <;> linarith
    · simp only [itemize_one, if_pos hs, if_pos hx, List.filter_append]
      split_ifs <;> simp_all <;> linarith

/-- C9 witness: Scenario C through `claim_C9` (a 100-share sell against 60
available with short selling disabled caps at 60 with no short-side intent),
plus the same scenario through the full `itemize_trade_signals`. -/
theorem claim_C9_witness :
    ((-100 : ℚ) < -(1 / 1000) ∧ (-100 : ℚ) < -60 ∧ (0 : ℚ) ≤ 60) ∧
    ((itemize_one false "X" 0 (-100) 100 60).filter
        (fun it => decide (it.direction = .sell)) =
      [⟨"X", .long, .sell, 60⟩] ∧
     (itemize_one false "X" 0 (-100) 100 60).filter
        (fun it => decide (it.position = .short)) = []) ∧
    itemize_trade_signals ["X"] [0] [-100] [100] 100000 [60] false =
      [⟨"X", PositionSide.long, TradeDirection.sell, 60⟩] := by
  refine ⟨⟨by norm_num, by norm_num, by norm_num⟩, ?_, ?_⟩
  · exact (claim_C9 "X" 0 (-100) 100 60 (by norm_num) (by norm_num) (by norm_num)).1
  · norm_num [itemize_trade_signals, clamp_cash, itemize_loop, itemize_one]

/-- C7: `submit_order` submits only from `created` (any other status performs no
state change and returns nothing); when it submits, it sets `submitted_time`
and `status = submitted` unconditionally, and resource insufficiency (available
cash below `qty * price` for a buy, available quantity below `qty` for a sell)
only sets the returned warning flag and never blocks the submission. -/
theorem claim_C7 (st : LedgerState) (order_id : ℕ) (now : ℤ) (o : TradeOrder)
    (ho : lookupId st.orders order_id = some o) :
    (o.status ≠ .created → submit_order st order_id now = (st, none, false, none)) ∧
    (o.status = .created →
      ∀ pos, lookupId st.positions o.pos_id = some pos →
      (o.direction = .sell →
        (submit_order st order_id now).2.1 = none ∧
        (submit_order st order_id now).2.2.1 = decide (pos.available_qty < o.qty) ∧
        (submit_order st order_id now).2.2.2 = some order_id ∧
        lookupId (submit_order st order_id now).1.orders order_id =
          some { o with status := .submitted, submitted_time := some now }) ∧
      (o.direction = .buy →
        ∀ a, lookupId st.accounts pos.account_id = some a →
        (submit_order st order_id now).2.1 = none ∧
        (submit_order st order_id now).2.2.1 = decide (a.available_cash < o.qty * o.price) ∧
        (submit_order st order_id now).2.2.2 = some order_id ∧
        lookupId (submit_order st order_id now).1.orders order_id =
          some { o with status := .submitted, submitted_time := some now })) := by
  constructor
  · intro hne
    simp only [submit_order, ho]
    rw [if_pos hne]
  · intro hc pos hpos
    have hupd : update_trade_order st order_id (some .submitted) none false now =
        (submit_write st order_id now o.qty, none, some order_id) := by
      simp only [update_trade_order, ho, hc]
      rfl
    constructor
    · intro hdir
      have hstep : submit_order st order_id now =
          (submit_write st order_id now o.qty, none,
           decide (pos.available_qty < o.qty), some order_id) := by
        simp only [submit_order, ho, hpos, hdir, hc, hupd]
        rw [if_neg (fun h => h rfl)]
      rw [hstep]
      refine ⟨rfl, rfl, rfl, ?_⟩
      simp only [submit_write, submitted_order]
      rw [lookupId_updateAssoc_self, ho]
      rfl
    · intro hdir a ha
      have hstep : submit_order st order_id now =
          (submit_write st order_id now o.qty, none,
           decide (a.available_cash < o.qty * o.price), some order_id) := by
        simp only [submit_order, ho, hpos, hdir, ha, hc, hupd]
        rw [if_neg (fun h => h rfl)]
      rw [hstep]
      refine ⟨rfl, rfl, rfl, ?_⟩
      simp only [submit_write, submitted_order]
      rw [lookupId_updateAssoc_self, ho]
      rfl

/-- C7 witness: `claim_C7` at a one-order ledger: a buy order with insufficient
available cash is still submitted (status and `submitted_time` set, warning
flag raised), and a non-created order is left untouched. -/
theorem claim_C7_witness :
    ((OrderStatus.filled ≠ OrderStatus.created ∧
      submit_order ⟨[(1, ⟨100, 50⟩)], [(7, ⟨1, "X", .long, 0, 0⟩)],
          [(3, ⟨7, .buy, 10, 100, .filled, none⟩)], [], 2, 1⟩ 3 5 =
        (⟨[(1, ⟨100, 50⟩)], [(7, ⟨1, "X", .long, 0, 0⟩)],
          [(3, ⟨7, .buy, 10, 100, .filled, none⟩)], [], 2, 1⟩, none, false, none))) ∧
    ((submit_order ⟨[(1, ⟨100, 50⟩)], [(7, ⟨1, "X", .long, 0, 0⟩)],
          [(3, ⟨7, .buy, 10, 100, .created, none⟩)], [], 2, 1⟩ 3 5).2.1 = none ∧
      (submit_order ⟨[(1, ⟨100, 50⟩)], [(7, ⟨1, "X", .long, 0, 0⟩)],
          [(3, ⟨7, .buy, 10, 100, .created, none⟩)], [], 2, 1⟩ 3 5).2.2.1 =
        decide ((50 : ℚ) < 10 * 100) ∧
      lookupId (submit_order ⟨[(1, ⟨100, 50⟩)], [(7, ⟨1, "X", .long, 0, 0⟩)],
          [(3, ⟨7, .buy, 10, 100, .created, none⟩)], [], 2, 1⟩ 3 5).1.orders 3 =
        some ⟨7, .buy, 10, 100, .submitted, some 5⟩) := by
  constructor
  · exact ⟨by decide,
      (claim_C7 ⟨[(1, ⟨100, 50⟩)], [(7, ⟨1, "X", .long, 0, 0⟩)],
        [(3, ⟨7, .buy, 10, 100, .filled, none⟩)], [], 2, 1⟩ 3 5
        ⟨7, .buy, 10, 100, .filled, none⟩ rfl).1 (by decide)⟩
  · have h := ((claim_C7 ⟨[(1, ⟨100, 50⟩)], [(7, ⟨1, "X", .long, 0, 0⟩)],
      [(3, ⟨7, .buy, 10, 100, .created, none⟩)], [], 2, 1⟩ 3 5
      ⟨7, .buy, 10, 100, .created, none⟩ rfl).2 rfl ⟨1, "X", .long, 0, 0⟩ rfl).2 rfl
      ⟨100, 50⟩ rfl
    exact ⟨h.1, h.2.1, h.2.2.2⟩

theorem update_trade_order_step (st : LedgerState) (oid : ℕ)
    (status : Option OrderStatus) (qty : Option ℚ) (flag : Bool) (now : ℤ) (j : ℕ)
    (o o' : TradeOrder) (ho : lookupId st.orders j = some o)
    (ho' : lookupId (update_trade_order st oid status qty flag now).1.orders j = some o') :
    o' = o ∨ legal_transition o.status o'.status = true := by
  cases status with
  | none =>
    simp only [update_trade_order] at ho'
    left
    rw [ho] at ho'
    exact (Option.some.inj ho').symm
  | some s =>
    simp only [update_trade_order] at ho'
    cases htgt : lookupId st.orders oid with
    | none =>
      rw [htgt] at ho'
      simp only at ho'
      left
      rw [ho] at ho'
      exact (Option.some.inj ho').symm
    | some ot =>
      rw [htgt] at ho'
      simp only at ho'
      by_cases hc1 : ot.status = .created ∧ s = .submitted
      · rw [if_pos hc1] at ho'
        cases qty with
        | some q =>
          simp only at ho'
          by_cases hq : q < 0
          · rw [if_pos hq] at ho'
            simp only at ho'
            left
            rw [ho] at ho'
            exact (Option.some.inj ho').symm
          · rw [if_neg hq] at ho'
            simp only at ho'
            by_cases hj : j = oid
            · subst hj
              rw [ho] at htgt
              have hot : o = ot := Option.some.inj htgt
              rw [lookupId_updateAssoc_self, ho] at ho'
              right
              have he : o' = { o with submitted_time := some now, status := s, qty := q } :=
                (Option.some.inj ho').symm
              rw [he, hot, hc1.1, hc1.2]
              rfl
            · left
              rw [lookupId_updateAssoc_ne _ _ _ _ hj, ho] at ho'
              exact (Option.some.inj ho').symm
        | none =>
          simp only at ho'
          by_cases hj : j = oid
          · subst hj
            rw [ho] at htgt
            have hot : o = ot := Option.some.inj htgt
            rw [lookupId_updateAssoc_self, ho] at ho'
            right
            have he : o' = { o with submitted_time := some now, status := s, qty := ot.qty } :=
              (Option.some.inj ho').symm
            rw [he, hot, hc1.1, hc1.2]
            rfl
          · left
            rw [lookupId_updateAssoc_ne _ _ _ _ hj, ho] at ho'
            exact (Option.some.inj ho').symm
      · rw [if_neg hc1] at ho'
        by_cases hc2 : ot.status = .submitted ∧ (s = .canceled ∨ s = .partFilled ∨ s = .filled)
        · rw [if_pos hc2] at ho'
          simp only at ho'
          by_cases hj : j = oid
          · subst hj
            rw [ho] at htgt
            have hot : o = ot := Option.some.inj htgt
            rw [lookupId_updateAssoc_self, ho] at ho'
            right
            have he : o' = { o with status := s } := (Option.some.inj ho').symm
            rw [he, hot, hc2.1]
            rcases hc2.2 with h | h | h <;> rw [h] <;> rfl
          · left
            rw [lookupId_updateAssoc_ne _ _ _ _ hj, ho] at ho'
            exact (Option.some.inj ho').symm
        · rw [if_neg hc2] at ho'
          by_cases hc3 : ot.status = .partFilled ∧ (s = .canceled ∨ s = .filled)
          · rw [if_pos hc3] at ho'
            simp only at ho'
            by_cases hj : j = oid
            · subst hj
              rw [ho] at htgt
              have hot : o = ot := Option.some.inj htgt
              rw [lookupId_updateAssoc_self, ho] at ho'
              right
              have he : o' = { o with status := s } := (Option.some.inj ho').symm
              rw [he, hot, hc3.1]
              rcases hc3.2 with h | h <;> rw [h] <;> rfl
            · left
              rw [lookupId_updateAssoc_ne _ _ _ _ hj, ho] at ho'
              exact (Option.some.inj ho').symm
          · rw [if_neg hc3] at ho'
            left
            by_cases hf : flag = true
            · rw [if_pos hf] at ho'
              simp only at ho'
              rw [ho] at ho'
              exact (Option.some.inj ho').symm
            · rw [if_neg hf] at ho'
              simp only at ho'
              rw [ho] at ho'
              exact (Option.some.inj ho').symm

theorem update_trade_order_terminal (st : LedgerState) (oid : ℕ)
    (status : Option OrderStatus) (qty : Option ℚ) (flag : Bool) (now : ℤ) (j : ℕ)
    (o : TradeOrder) (ho : lookupId st.orders j = some o)
    (hterm : o.status = .canceled ∨ o.status = .filled) :
    lookupId (update_trade_order st oid status qty flag now).1.orders j = some o := by
  cases status with
  | none => simpa [update_trade_order] using ho
  | some s =>
    simp only [update_trade_order]
    cases htgt : lookupId st.orders oid with
    | none => simpa using ho
    | some ot =>
      simp only
      by_cases hj : j = oid
      · subst hj
        rw [ho] at htgt
        have hot : o = ot := Option.some.inj htgt
        have hns : ot.status ≠ .created ∧ ot.status ≠ .submitted ∧ ot.status ≠ .partFilled := by
          rw [← hot]
          rcases hterm with h | h <;> rw [h] <;> exact ⟨by decide, by decide, by decide⟩
        rw [if_neg (fun h => hns.1 h.1), if_neg (fun h => hns.2.1 h.1),
          if_neg (fun h => hns.2.2 h.1)]
        by_cases hf : flag = true
        · rw [if_pos hf]
          exact ho
        · rw [if_neg hf]
          exact ho
      · by_cases hc1 : ot.status = .created ∧ s = .submitted
        · rw [if_pos hc1]
          cases qty with
          | some q =>
            simp only
            by_cases hq : q < 0
            · rw [if_pos hq]
              exact ho
            · rw [if_neg hq]
              simp only
              rw [lookupId_updateAssoc_ne _ _ _ _ hj]
              exact ho
          | none =>
            simp only
            rw [lookupId_updateAssoc_ne _ _ _ _ hj]
            exact ho
        · rw [if_neg hc1]
          by_cases hc2 : ot.status = .submitted ∧ (s = .canceled ∨ s = .partFilled ∨ s = .filled)
          · rw [if_pos hc2]
            simp only
            rw [lookupId_updateAssoc_ne _ _ _ _ hj]
            exact ho
          · rw [if_neg hc2]
            by_cases hc3 : ot.status = .partFilled ∧ (s = .canceled ∨ s = .filled)
            · rw [if_pos hc3]
              simp only
              rw [lookupId_updateAssoc_ne _ _ _ _ hj]
              exact ho
            · rw [if_neg hc3]
              by_cases hf : flag = true
              · rw [if_pos hf]
                exact ho
              · rw [if_neg hf]
                exact ho

/-- C8: every `update_trade_order` call either leaves an order unchanged or
moves its status along one edge of the section 4.3 graph (created to
submitted; submitted to partial-filled, filled or canceled; partial-filled to
filled or canceled), and once an order is `canceled` or `filled` no sequence
of calls ever changes its record again. -/
theorem claim_C8 :
    (∀ (st : LedgerState) (oid : ℕ) (status : Option OrderStatus) (qty : Option ℚ)
      (flag : Bool) (now : ℤ) (j : ℕ) (o o' : TradeOrder),
      lookupId st.orders j = some o →
      lookupId (update_trade_order st oid status qty flag now).1.orders j = some o' →
      o' = o ∨ legal_transition o.status o'.status = true) ∧
    (∀ (st : LedgerState) (calls : List OrderUpdateCall) (j : ℕ) (o : TradeOrder),
      lookupId st.orders j = some o →
      o.status = .canceled ∨ o.status = .filled →
      lookupId (run_order_updates st calls).orders j = some o) := by
  constructor
  · exact update_trade_order_step
  · intro st calls
    induction calls generalizing st with
    | nil => intro j o ho _; exact ho
    | cons c rest ih =>
      intro j o ho hterm
      exact ih _ j o
        (update_trade_order_terminal st c.order_id c.status c.qty c.strict c.now j o
          ho hterm) hterm

/-- C8 witness: `claim_C8` at a concrete ledger: a submitted-to-filled step is a
legal edge, and a filled order survives a whole call sequence unchanged. -/
theorem claim_C8_witness :
    ((⟨7, .buy, 10, 100, .filled, none⟩ : TradeOrder) =
        ⟨7, .buy, 10, 100, .submitted, none⟩ ∨
      legal_transition OrderStatus.submitted OrderStatus.filled = true) ∧
    lookupId (run_order_updates ⟨[], [], [(3, ⟨7, .buy, 10, 100, .filled, none⟩)], [], 1, 1⟩
        [⟨3, some .submitted, none, false, 9⟩, ⟨3, some .canceled, none, false, 9⟩]).orders 3 =
      some ⟨7, .buy, 10, 100, .filled, none⟩ := by
  constructor
  · exact claim_C8.1 ⟨[], [], [(3, ⟨7, .buy, 10, 100, .submitted, none⟩)], [], 1, 1⟩
      3 (some .filled) none false 9 3 ⟨7, .buy, 10, 100, .submitted, none⟩
      ⟨7, .buy, 10, 100, .filled, none⟩ rfl rfl
  · exact claim_C8.2 ⟨[], [], [(3, ⟨7, .buy, 10, 100, .filled, none⟩)], [], 1, 1⟩
      [⟨3, some .submitted, none, false, 9⟩, ⟨3, some .canceled, none, false, 9⟩]
      3 ⟨7, .buy, 10, 100, .filled, none⟩ rfl (Or.inr rfl)

theorem update_trade_order_state (st : LedgerState) (oid : ℕ)
    (status : Option OrderStatus) (qty : Option ℚ) (flag : Bool) (now : ℤ) :
    (update_trade_order st oid status qty flag now).1.accounts = st.accounts ∧
    (update_trade_order st oid status qty flag now).1.positions = st.positions ∧
    (update_trade_order st oid status qty flag now).1.results = st.results := by
  unfold update_trade_order
  cases status with
  | none => exact ⟨rfl, rfl, rfl⟩
  | some s =>
    cases lookupId st.orders oid with
    | none => exact ⟨rfl, rfl, rfl⟩
    | some o =>
      simp only
      split_ifs <;>
        first
        | exact ⟨rfl, rfl, rfl⟩
        | (cases qty with
            | some q =>
              simp only
              split_ifs <;> exact ⟨rfl, rfl, rfl⟩
            | none => exact ⟨rfl, rfl, rfl⟩)

theorem update_trade_order_inv (st : LedgerState) (oid : ℕ)
    (status : Option OrderStatus) (qty : Option ℚ) (flag : Bool) (now : ℤ)
    (h : LedgerInv st) : LedgerInv (update_trade_order st oid status qty flag now).1 := by
  have hs := update_trade_order_state st oid status qty flag now
  exact ⟨by rw [hs.1]; exact h.1, by rw [hs.2.1]; exact h.2⟩

theorem write_trade_result_inv (st : LedgerState) (r : TradeResult)
    (h : LedgerInv st) : LedgerInv (write_trade_result st r).1 := by
  unfold write_trade_result
  split_ifs <;> exact ⟨h.1, h.2⟩

theorem update_trade_result_inv (st : LedgerState) (rid : ℕ) (s : DeliveryStatus)
    (h : LedgerInv st) : LedgerInv (update_trade_result st rid s) :=
  ⟨h.1, h.2⟩

theorem write_trade_result_inv2 {st1 st2 : LedgerState} {r : TradeResult}
    {e : Option String} {i : Option ℕ} (hw : write_trade_result st1 r = (st2, e, i))
    (h : LedgerInv st1) : LedgerInv st2 := by
  have hx := write_trade_result_inv st1 r h
  rw [hw] at hx
  exact hx

theorem update_account_balance_inv2 {st1 st2 : LedgerState} {aid : ℕ} {dc dac : ℚ}
    {e : Option String} (hb : update_account_balance st1 aid dc dac = (st2, e))
    (h : LedgerInv st1) : LedgerInv st2 := by
  have hx := @update_account_balance_inv st1 aid dc dac h
  rw [hb] at hx
  exact hx

theorem update_position_inv2 {st1 st2 : LedgerState} {pid : ℕ} {dq daq : ℚ}
    {e : Option String} (hp : update_position st1 pid dq daq = (st2, e))
    (h : LedgerInv st1) : LedgerInv st2 := by
  have hx := @update_position_inv st1 pid dq daq h
  rw [hp] at hx
  exact hx

theorem deliver_one_inv (aid : ℕ) (config : TradeConfig) (day : ℤ) (st : LedgerState)
    (entry : ℕ × TradeResult) (h : LedgerInv st) :
    LedgerInv (deliver_one aid config day st entry).1 := by
  unfold deliver_one
  cases read_trade_order_detail st entry.2.order_id with
  | none => exact h
  | some dp =>
    rcases dp with ⟨od, pos⟩
    simp only
    split_ifs
    · exact h
    · exact h
    · cases hd : od.direction
      · rcases hu : update_position st od.pos_id 0 entry.2.delivery_amount with ⟨st1, e⟩
        have h1 : LedgerInv st1 := by
          have := @update_position_inv st od.pos_id 0 entry.2.delivery_amount h
          rw [hu] at this
          exact this
        cases e with
        | none => exact ⟨h1.1, h1.2⟩
        | some msg => exact h1
      · rcases hu : update_account_balance st pos.account_id 0 entry.2.delivery_amount
          with ⟨st1, e⟩
        have h1 : LedgerInv st1 := by
          have := @update_account_balance_inv st pos.account_id 0 entry.2.delivery_amount h
          rw [hu] at this
          exact this
        cases e with
        | none => exact ⟨h1.1, h1.2⟩
        | some msg => exact h1

theorem deliver_loop_inv (aid : ℕ) (config : TradeConfig) (day : ℤ) :
    ∀ (l : List (ℕ × TradeResult)) (st : LedgerState), LedgerInv st →
      LedgerInv (deliver_loop aid config day st l).1
  | [], _, h => h
  | e :: rest, st, h => by
    unfold deliver_loop
    rcases hu : deliver_one aid config day st e with ⟨st1, err⟩
    have h1 : LedgerInv st1 := by
      have := deliver_one_inv aid config day st e h
      rw [hu] at this
      exact this
    cases err with
    | none => exact deliver_loop_inv aid config day rest st1 h1
    | some msg => exact h1

theorem process_trade_delivery_inv (st : LedgerState) (aid : ℕ) (config : TradeConfig)
    (day : ℤ) (h : LedgerInv st) : LedgerInv (process_trade_delivery st aid config day).1 :=
  deliver_loop_inv aid config day _ st h

theorem process_trade_delivery_inv2 {st st1 : LedgerState} {aid : ℕ}
    {config : TradeConfig} {day : ℤ} {e : Option String}
    (hdel : process_trade_delivery st aid config day = (st1, e)) (h : LedgerInv st) :
    LedgerInv st1 := by
  have hx := process_trade_delivery_inv st aid config day h
  rw [hdel] at hx
  exact hx

theorem settle_trade_result_inv (st1 : LedgerState) (oid : ℕ) (od : TradeOrder)
    (aid : ℕ) (raw : RawTradeResult) (ns : OrderStatus) (today : ℤ)
    (h : LedgerInv st1) : LedgerInv (settle_trade_result st1 oid od aid raw ns today).1 := by
  unfold settle_trade_result
  cases od.direction <;>
  · cases lookupId st1.positions od.pos_id with
    | none => exact h
    | some p1 =>
      simp only
      split_ifs
      · exact h
      · cases lookupId st1.accounts aid with
        | none => exact h
        | some a1 =>
          simp only
          split_ifs
          · exact h
          · split
            · rename_i st2 e i heq
              exact write_trade_result_inv2 heq h
            · rename_i st2 i heq
              have h2 : LedgerInv st2 := write_trade_result_inv2 heq h
              split
              · rename_i st3 e3 hb
                exact update_account_balance_inv2 hb h2
              · rename_i st3 hb
                have h3 : LedgerInv st3 := update_account_balance_inv2 hb h2
                split
                · rename_i st4 e4 hp
                  exact update_position_inv2 hp h3
                · rename_i st4 hp
                  have h4 : LedgerInv st4 := update_position_inv2 hp h3
                  exact update_trade_order_inv st4 oid _ none false today h4

theorem process_trade_result_inv (st : LedgerState) (raw : RawTradeResult)
    (config : TradeConfig) (today : ℤ) (h : LedgerInv st) :
    LedgerInv (process_trade_result st raw config today).1 := by
  unfold process_trade_result
  cases read_trade_order_detail st raw.order_id with
  | none => exact h
  | some dp =>
    rcases dp with ⟨od, pos⟩
    simp only
    by_cases hstat : od.status = .created ∨ od.status = .filled ∨ od.status = .canceled
    · rw [if_pos hstat]
      exact h
    · rw [if_neg hstat]
      split
      · rename_i st1 e hdel
        exact process_trade_delivery_inv2 hdel h
      · rename_i st1 hdel
        have h1 : LedgerInv st1 := process_trade_delivery_inv2 hdel h
        split_ifs
        · exact h1
        · exact settle_trade_result_inv _ _ _ _ _ _ _ h1
        · exact h1
        · exact settle_trade_result_inv _ _ _ _ _ _ _ h1
        · exact settle_trade_result_inv _ _ _ _ _ _ _ h1

theorem submit_order_inv (st : LedgerState) (oid : ℕ) (now : ℤ) (h : LedgerInv st) :
    LedgerInv (submit_order st oid now).1 := by
  unfold submit_order
  cases lookupId st.orders oid with
  | none => exact h
  | some o =>
    simp only
    split_ifs
    · exact h
    · cases lookupId st.positions o.pos_id with
      | none => exact h
      | some pos =>
        simp only
        cases o.direction
        · cases lookupId st.accounts pos.account_id with
          | none => exact h
          | some a => exact update_trade_order_inv st oid _ none false now h
        · exact update_trade_order_inv st oid _ none false now h

theorem apply_trade_op_inv (st : LedgerState) (op : TradeOp) (h : LedgerInv st) :
    LedgerInv (apply_trade_op st op) := by
  cases op with
  | submit oid now => exact submit_order_inv st oid now h
  | fill raw config today => exact process_trade_result_inv st raw config today h
  | settle aid config today => exact process_trade_delivery_inv st aid config today h

/-- C1: `update_account_balance` (and `update_position`) re-reads the record,
applies the delta and raises without writing whenever the written record would
violate `0 <= available <= total`; a successful call writes exactly the
delta-updated record, which satisfies the invariant.  Consequently the ledger
invariant is preserved by every sequence of submit / fill / settle operations,
each operation's raising path included. -/
theorem claim_C1 :
    (∀ (st : LedgerState) (aid : ℕ) (dc dac : ℚ) (a : Account),
      lookupId st.accounts aid = some a →
      (¬ (0 ≤ a.available_cash + dac ∧ a.available_cash + dac ≤ a.cash_amount + dc) →
        (update_account_balance st aid dc dac).2 ≠ none ∧
        (update_account_balance st aid dc dac).1 = st) ∧
      ((update_account_balance st aid dc dac).2 = none →
        lookupId (update_account_balance st aid dc dac).1.accounts aid =
          some { cash_amount := a.cash_amount + dc,
                 available_cash := a.available_cash + dac } ∧
        0 ≤ a.available_cash + dac ∧ a.available_cash + dac ≤ a.cash_amount + dc)) ∧
    (∀ (st : LedgerState) (pid : ℕ) (dq daq : ℚ) (p : Position),
      lookupId st.positions pid = some p →
      (¬ (0 ≤ p.available_qty + daq ∧ p.available_qty + daq ≤ p.qty + dq) →
        (update_position st pid dq daq).2 ≠ none ∧
        (update_position st pid dq daq).1 = st) ∧
      ((update_position st pid dq daq).2 = none →
        lookupId (update_position st pid dq daq).1.positions pid =
          some { p with qty := p.qty + dq, available_qty := p.available_qty + daq } ∧
        0 ≤ p.available_qty + daq ∧ p.available_qty + daq ≤ p.qty + dq)) ∧
    (∀ (st : LedgerState) (ops : List TradeOp),
      LedgerInv st → LedgerInv (run_trade_ops st ops)) := by
  refine ⟨?_, ?_, ?_⟩
  · intro st aid dc dac a ha
    unfold update_account_balance
    rw [ha]
    simp only
    split_ifs with h1 h2 h3
    · exact ⟨fun _ => ⟨by simp, rfl⟩, fun habs => absurd habs (by simp)⟩
    · exact ⟨fun _ => ⟨by simp, rfl⟩, fun habs => absurd habs (by simp)⟩
    · exact ⟨fun _ => ⟨by simp, rfl⟩, fun habs => absurd habs (by simp)⟩
    · constructor
      · intro hviol
        exact absurd ⟨not_lt.mp h2, not_lt.mp h1⟩ hviol
      · intro _
        refine ⟨?_, not_lt.mp h2, not_lt.mp h1⟩
        dsimp only
        rw [lookupId_updateAssoc_self, ha]
        rfl
  · intro st pid dq daq p hp
    unfold update_position
    rw [hp]
    simp only
    split_ifs with h1 h2 h3
    · exact ⟨fun _ => ⟨by simp, rfl⟩, fun habs => absurd habs (by simp)⟩
    · exact ⟨fun _ => ⟨by simp, rfl⟩, fun habs => absurd habs (by simp)⟩
    · exact ⟨fun _ => ⟨by simp, rfl⟩, fun habs => absurd habs (by simp)⟩
    · constructor
      · intro hviol
        exact absurd ⟨not_lt.mp h2, not_lt.mp h1⟩ hviol
      · intro _
        refine ⟨?_, not_lt.mp h2, not_lt.mp h1⟩
        dsimp only
        rw [lookupId_updateAssoc_self, hp]
        rfl
  · intro st ops
    induction ops generalizing st with
    | nil => exact fun h => h
    | cons op rest ih => exact fun h => ih _ (apply_trade_op_inv st op h)

/-- C1 witness: `claim_C1` at a one-account ledger: a delta that would push
`available_cash` above `cash_amount` raises and leaves the ledger unchanged,
and a settle operation preserves the invariant. -/
theorem claim_C1_witness :
    (¬ ((0 : ℚ) ≤ 100 + 50 ∧ (100 : ℚ) + 50 ≤ 100 + 0) ∧
     (update_account_balance ⟨[(1, ⟨100, 100⟩)], [], [], [], 2, 1⟩ 1 0 50).2 ≠ none ∧
     (update_account_balance ⟨[(1, ⟨100, 100⟩)], [], [], [], 2, 1⟩ 1 0 50).1 =
       ⟨[(1, ⟨100, 100⟩)], [], [], [], 2, 1⟩) ∧
    (LedgerInv (⟨[(1, ⟨100, 100⟩)], [], [], [], 2, 1⟩ : LedgerState) ∧
     LedgerInv (run_trade_ops ⟨[(1, ⟨100, 100⟩)], [], [], [], 2, 1⟩
       [TradeOp.settle 1 ⟨1, 1⟩ 0])) := by
  have hinv : LedgerInv (⟨[(1, ⟨100, 100⟩)], [], [], [], 2, 1⟩ : LedgerState) := by
    constructor
    · intro p hp
      simp only [List.mem_singleton] at hp
      subst hp
      norm_num
    · intro p hp
      simp at hp
  have h1 := (claim_C1.1 ⟨[(1, ⟨100, 100⟩)], [], [], [], 2, 1⟩ 1 0 50 ⟨100, 100⟩ rfl).1
    (by norm_num)
  exact ⟨⟨by norm_num, h1.1, h1.2⟩, hinv,
    claim_C1.2.2 _ [TradeOp.settle 1 ⟨1, 1⟩ 0] hinv⟩

theorem update_account_balance_frame (st : LedgerState) (aid : ℕ) (dc dac : ℚ) :
    (update_account_balance st aid dc dac).1.orders = st.orders ∧
    (update_account_balance st aid dc dac).1.results = st.results ∧
    (update_account_balance st aid dc dac).1.positions = st.positions := by
  unfold update_account_balance
  cases lookupId st.accounts aid with
  | none => exact ⟨rfl, rfl, rfl⟩
  | some a =>
    simp only
    split_ifs <;> exact ⟨rfl, rfl, rfl⟩

theorem update_position_frame (st : LedgerState) (pid : ℕ) (dq daq : ℚ) :
    (update_position st pid dq daq).1.orders = st.orders ∧
    (update_position st pid dq daq).1.results = st.results ∧
    (update_position st pid dq daq).1.accounts = st.accounts := by
  unfold update_position
  cases lookupId st.positions pid with
  | none => exact ⟨rfl, rfl, rfl⟩
  | some p =>
    simp only
    split_ifs <;> exact ⟨rfl, rfl, rfl⟩

theorem updateAssoc_cons {α : Type} (hd : ℕ × α) (tl : List (ℕ × α)) (id : ℕ)
    (f : α → α) :
    updateAssoc (hd :: tl) id f =
      (if hd.1 = id then (hd.1, f hd.2) else hd) :: updateAssoc tl id f := rfl

theorem sum_filled_list_updateAssoc (order_id rid : ℕ) (s : DeliveryStatus) :
    ∀ l : List (ℕ × TradeResult),
      sum_filled_list order_id
        (updateAssoc l rid (fun r => { r with delivery_status := s })) =
      sum_filled_list order_id l
  | [] => rfl
  | hd :: tl => by
    rw [updateAssoc_cons]
    by_cases hid : hd.1 = rid
    · rw [if_pos hid]
      simp only [sum_filled_list]
      rw [sum_filled_list_updateAssoc order_id rid s tl]
    · rw [if_neg hid]
      simp only [sum_filled_list]
      rw [sum_filled_list_updateAssoc order_id rid s tl]

theorem deliver_one_frame (aid : ℕ) (config : TradeConfig) (day : ℤ)
    (st : LedgerState) (entry : ℕ × TradeResult) :
    (deliver_one aid config day st entry).1.orders = st.orders ∧
    (∀ oid, sum_filled_qty (deliver_one aid config day st entry).1 oid =
      sum_filled_qty st oid) := by
  unfold deliver_one
  split
  · exact ⟨rfl, fun _ => rfl⟩
  · rename_i dp od pos heq
    simp only
    split_ifs
    · exact ⟨rfl, fun _ => rfl⟩
    · exact ⟨rfl, fun _ => rfl⟩
    · cases od.direction
      · rcases hu : update_position st od.pos_id 0 entry.2.delivery_amount with ⟨st1, e⟩
        have hfr := update_position_frame st od.pos_id 0 entry.2.delivery_amount
        rw [hu] at hfr
        cases e with
        | some msg => exact ⟨hfr.1, fun oid => by unfold sum_filled_qty; rw [hfr.2.1]⟩
        | none =>
          refine ⟨hfr.1, fun oid => ?_⟩
          unfold sum_filled_qty update_trade_result
          simp only
          rw [sum_filled_list_updateAssoc, hfr.2.1]
      · rcases hu : update_account_balance st pos.account_id 0 entry.2.delivery_amount
          with ⟨st1, e⟩
        have hfr := update_account_balance_frame st pos.account_id 0 entry.2.delivery_amount
        rw [hu] at hfr
        cases e with
        | some msg => exact ⟨hfr.1, fun oid => by unfold sum_filled_qty; rw [hfr.2.1]⟩
        | none =>
          refine ⟨hfr.1, fun oid => ?_⟩
          unfold sum_filled_qty update_trade_result
          simp only
          rw [sum_filled_list_updateAssoc, hfr.2.1]

theorem deliver_loop_frame (aid : ℕ) (config : TradeConfig) (day : ℤ) :
    ∀ (l : List (ℕ × TradeResult)) (st : LedgerState),
      (deliver_loop aid config day st l).1.orders = st.orders ∧
      (∀ oid, sum_filled_qty (deliver_loop aid config day st l).1 oid =
        sum_filled_qty st oid)
  | [], _ => ⟨rfl, fun _ => rfl⟩
  | e :: rest, st => by
    unfold deliver_loop
    rcases hu : deliver_one aid config day st e with ⟨st1, err⟩
    have hfr := deliver_one_frame aid config day st e
    rw [hu] at hfr
    cases err with
    | some msg => exact hfr
    | none =>
      have hrest := deliver_loop_frame aid config day rest st1
      exact ⟨hrest.1.trans hfr.1, fun oid => (hrest.2 oid).trans (hfr.2 oid)⟩

theorem process_trade_delivery_frame (st : LedgerState) (aid : ℕ) (config : TradeConfig)
    (day : ℤ) :
    (process_trade_delivery st aid config day).1.orders = st.orders ∧
    (∀ oid, sum_filled_qty (process_trade_delivery st aid config day).1 oid =
      sum_filled_qty st oid) :=
  deliver_loop_frame aid config day _ st

theorem write_trade_result_frame (st : LedgerState) (r : TradeResult) :
    (write_trade_result st r).1.orders = st.orders ∧
    (write_trade_result st r).1.positions = st.positions ∧
    (write_trade_result st r).1.accounts = st.accounts := by
  unfold write_trade_result
  split_ifs <;> exact ⟨rfl, rfl, rfl⟩

theorem read_trade_order_detail_spec {st : LedgerState} {oid : ℕ} {od : TradeOrder}
    {pos : Position} (h : read_trade_order_detail st oid = some (od, pos)) :
    lookupId st.orders oid = some od ∧ lookupId st.positions od.pos_id = some pos := by
  unfold read_trade_order_detail at h
  cases hlo : lookupId st.orders oid with
  | none => rw [hlo] at h; cases h
  | some o0 =>
    rw [hlo] at h
    simp only at h
    cases hlp : lookupId st.positions o0.pos_id with
    | none => rw [hlp] at h; cases h
    | some p0 =>
      rw [hlp] at h
      simp only at h
      have h2 := Option.some.inj h
      have hoeq : o0 = od := congrArg Prod.fst h2
      have hpeq : p0 = pos := congrArg Prod.snd h2
      subst hoeq
      subst hpeq
      exact ⟨rfl, hlp⟩

theorem update_trade_order_writes_status (st : LedgerState) (oid : ℕ) (ns : OrderStatus)
    (now : ℤ) (o : TradeOrder) (ho : lookupId st.orders oid = some o)
    (hst : o.status = .submitted ∨ o.status = .partFilled)
    (hns : ns = .canceled ∨ ns = .filled ∨ ns = .partFilled) :
    ∃ o2, lookupId (update_trade_order st oid (some ns) none false now).1.orders oid =
      some o2 ∧ o2.status = ns := by
  unfold update_trade_order
  rw [ho]
  simp only
  have hc1 : ¬ (o.status = .created ∧ ns = .submitted) := by
    rintro ⟨h, _⟩
    rcases hst with h2 | h2 <;> rw [h2] at h <;> cases h
  rw [if_neg hc1]
  rcases hst with hsub | hpf
  · have hc2 : o.status = .submitted ∧ (ns = .canceled ∨ ns = .partFilled ∨ ns = .filled) :=
      ⟨hsub, by tauto⟩
    rw [if_pos hc2]
    refine ⟨{ o with status := ns }, ?_, rfl⟩
    dsimp only
    rw [lookupId_updateAssoc_self, ho]
    rfl
  · have hc2 : ¬ (o.status = .submitted ∧ (ns = .canceled ∨ ns = .partFilled ∨ ns = .filled)) := by
      rintro ⟨h, _⟩
      rw [hpf] at h
      cases h
    rw [if_neg hc2]
    by_cases hnpf : ns = .partFilled
    · have hc3 : ¬ (o.status = .partFilled ∧ (ns = .canceled ∨ ns = .filled)) := by
        rintro ⟨_, h⟩
        rcases h with h | h <;> rw [hnpf] at h <;> cases h
      rw [if_neg hc3]
      simp only [Bool.false_eq_true, if_false]
      exact ⟨o, ho, by rw [hpf, hnpf]⟩
    · have hc3 : o.status = .partFilled ∧ (ns = .canceled ∨ ns = .filled) :=
        ⟨hpf, by tauto⟩
      rw [if_pos hc3]
      refine ⟨{ o with status := ns }, ?_, rfl⟩
      dsimp only
      rw [lookupId_updateAssoc_self, ho]
      rfl

theorem settle_final_status (st1 : LedgerState) (oid : ℕ) (od od1 : TradeOrder)
    (aid : ℕ) (raw : RawTradeResult) (ns : OrderStatus) (today : ℤ)
    (ho1 : lookupId st1.orders oid = some od1)
    (hst : od1.status = .submitted ∨ od1.status = .partFilled)
    (hns : ns = .canceled ∨ ns = .filled ∨ ns = .partFilled)
    (hok : (settle_trade_result st1 oid od aid raw ns today).2 = none) :
    ∃ o2, lookupId (settle_trade_result st1 oid od aid raw ns today).1.orders oid =
      some o2 ∧ o2.status = ns := by
  unfold settle_trade_result at hok ⊢
  cases hp1 : lookupId st1.positions od.pos_id with
  | none =>
    rw [hp1] at hok
    simp at hok
  | some p1 =>
    rw [hp1] at hok
    simp only at hok ⊢
    by_cases hq : p1.available_qty + raw.filled_qty < 0
    · rw [if_pos hq] at hok
      simp at hok
    · rw [if_neg hq] at hok ⊢
      cases ha1 : lookupId st1.accounts aid with
      | none =>
        rw [ha1] at hok
        simp at hok
      | some a1 =>
        rw [ha1] at hok
        simp only at hok ⊢
        by_cases hc : a1.available_cash + fill_cash_change od raw < 0
        · rw [if_pos hc] at hok
          simp at hok
        · rw [if_neg hc] at hok ⊢
          rcases hw : write_trade_result st1 (fill_trade_result od raw today)
            with ⟨st2, e2, i2⟩
          rw [hw] at hok
          cases e2 with
          | some msg => simp at hok
          | none =>
            simp only at hok ⊢
            have horders2 : st2.orders = st1.orders := by
              have hx := (write_trade_result_frame st1 (fill_trade_result od raw today)).1
              rw [hw] at hx
              exact hx
            cases hdir : od.direction
            · rw [hdir] at hok
              simp only at hok
              rcases hb : update_account_balance st2 aid (fill_cash_change od raw)
                (fill_cash_change od raw) with ⟨st3, e3⟩
              rw [hb] at hok
              cases e3 with
              | some msg => simp at hok
              | none =>
                simp only at hok ⊢
                rcases hup : update_position st3 od.pos_id raw.filled_qty 0 with ⟨st4, e4⟩
                rw [hup] at hok
                cases e4 with
                | some msg => simp at hok
                | none =>
                  simp only at hok ⊢
                  have ho4 : lookupId st4.orders oid = some od1 := by
                    have f3 := (update_account_balance_frame st2 aid (fill_cash_change od raw)
                      (fill_cash_change od raw)).1
                    rw [hb] at f3
                    have f4 := (update_position_frame st3 od.pos_id raw.filled_qty 0).1
                    rw [hup] at f4
                    rw [f4, f3, horders2]
                    exact ho1
                  exact update_trade_order_writes_status st4 oid ns today od1 ho4 hst hns
            · rw [hdir] at hok
              simp only at hok
              rcases hb : update_account_balance st2 aid (fill_cash_change od raw) 0
                with ⟨st3, e3⟩
              rw [hb] at hok
              cases e3 with
              | some msg => simp at hok
              | none =>
                simp only at hok ⊢
                rcases hup : update_position st3 od.pos_id (-raw.filled_qty) (-raw.filled_qty)
                  with ⟨st4, e4⟩
                rw [hup] at hok
                cases e4 with
                | some msg => simp at hok
                | none =>
                  simp only at hok ⊢
                  have ho4 : lookupId st4.orders oid = some od1 := by
                    have f3 := (update_account_balance_frame st2 aid (fill_cash_change od raw)
                      0).1
                    rw [hb] at f3
                    have f4 := (update_position_frame st3 od.pos_id (-raw.filled_qty)
                      (-raw.filled_qty)).1
                    rw [hup] at f4
                    rw [f4, f3, horders2]
                    exact ho1
                  exact update_trade_order_writes_status st4 oid ns today od1 ho4 hst hns

/-- C4: `process_trade_result` raises on an order whose status is `created`,
`filled` or `canceled`, leaving the ledger unchanged.  Otherwise, with
`remaining_qty = order.qty` minus the summed `filled_qty` of the order's
previous fills: a positive `canceled_qty` different from `remaining_qty`
raises; a successful cancel run ends with the stored status `canceled`; a
`filled_qty` exceeding `remaining_qty` raises; and a successful fill run ends
with the stored status `filled` when `filled_qty = remaining_qty` and
`partial-filled` when it is smaller. -/
theorem claim_C4 (st : LedgerState) (raw : RawTradeResult) (config : TradeConfig)
    (today : ℤ) (od : TradeOrder) (pos : Position)
    (hdetail : read_trade_order_detail st raw.order_id = some (od, pos)) :
    ((od.status = .created ∨ od.status = .filled ∨ od.status = .canceled) →
      (process_trade_result st raw config today).2 ≠ none ∧
      (process_trade_result st raw config today).1 = st) ∧
    (¬ (od.status = .created ∨ od.status = .filled ∨ od.status = .canceled) →
      (raw.canceled_qty > 0 ∧ raw.canceled_qty ≠ od.qty - sum_filled_qty st raw.order_id →
        (process_trade_result st raw config today).2 ≠ none) ∧
      (raw.canceled_qty > 0 → (process_trade_result st raw config today).2 = none →
        raw.canceled_qty = od.qty - sum_filled_qty st raw.order_id ∧
        ∃ o2, lookupId (process_trade_result st raw config today).1.orders raw.order_id =
          some o2 ∧ o2.status = .canceled) ∧
      (¬ raw.canceled_qty > 0 ∧ raw.filled_qty > od.qty - sum_filled_qty st raw.order_id →
        (process_trade_result st raw config today).2 ≠ none) ∧
      (¬ raw.canceled_qty > 0 → (process_trade_result st raw config today).2 = none →
        ∃ o2, lookupId (process_trade_result st raw config today).1.orders raw.order_id =
          some o2 ∧
          o2.status = (if raw.filled_qty = od.qty - sum_filled_qty st raw.order_id
            then OrderStatus.filled else OrderStatus.partFilled))) := by
  have hspec := read_trade_order_detail_spec hdetail
  constructor
  · intro hterm
    unfold process_trade_result
    rw [hdetail]
    simp only
    rw [if_pos hterm]
    exact ⟨by simp, rfl⟩
  · intro hterm
    have hst : od.status = .submitted ∨ od.status = .partFilled := by
      cases h : od.status
      · exact absurd (Or.inl h) hterm
      · exact Or.inl rfl
      · exact Or.inr rfl
      · exact absurd (Or.inr (Or.inl h)) hterm
      · exact absurd (Or.inr (Or.inr h)) hterm
    unfold process_trade_result
    rw [hdetail]
    simp only
    rw [if_neg hterm]
    have hfr := process_trade_delivery_frame st pos.account_id config today
    rcases hdel : process_trade_delivery st pos.account_id config today with ⟨st1, e1⟩
    rw [hdel] at hfr
    cases e1 with
    | some msg =>
      simp only
      exact ⟨fun _ => by simp, fun _ habs => absurd habs (by simp), fun _ => by simp,
        fun _ habs => absurd habs (by simp)⟩
    | none =>
      simp only
      have hsum : sum_filled_qty st1 raw.order_id = sum_filled_qty st raw.order_id :=
        hfr.2 raw.order_id
      have ho1 : lookupId st1.orders raw.order_id = some od := by
        rw [hfr.1]
        exact hspec.1
      rw [hsum]
      refine ⟨?_, ?_, ?_, ?_⟩
      · rintro ⟨hcpos, hcne⟩
        rw [if_pos hcpos, if_pos hcne]
        simp
      · intro hcpos hok
        rw [if_pos hcpos] at hok ⊢
        by_cases hcne : raw.canceled_qty ≠ od.qty - sum_filled_qty st raw.order_id
        · rw [if_pos hcne] at hok
          simp at hok
        · rw [if_neg hcne] at hok ⊢
          exact ⟨not_not.mp hcne,
            settle_final_status st1 raw.order_id od od pos.account_id raw .canceled today
              ho1 hst (Or.inl rfl) hok⟩
      · rintro ⟨hcneg, hgt⟩
        rw [if_neg hcneg, if_pos hgt]
        simp
      · intro hcneg hok
        rw [if_neg hcneg] at hok ⊢
        by_cases hgt : raw.filled_qty > od.qty - sum_filled_qty st raw.order_id
        · rw [if_pos hgt] at hok
          simp at hok
        · rw [if_neg hgt] at hok ⊢
          by_cases heq : raw.filled_qty = od.qty - sum_filled_qty st raw.order_id
          · rw [if_pos heq] at hok ⊢
            rw [if_pos heq]
            exact settle_final_status st1 raw.order_id od od pos.account_id raw .filled
              today ho1 hst (Or.inr (Or.inl rfl)) hok
          · rw [if_neg heq] at hok ⊢
            rw [if_neg heq]
            exact settle_final_status st1 raw.order_id od od pos.account_id raw .partFilled
              today ho1 hst (Or.inr (Or.inr rfl)) hok

/-- C4 witness: `claim_C4` on Scenario D's first fill: a 40-of-100 fill on a
submitted order processes successfully and stores status `partial-filled`. -/
theorem claim_C4_witness :
    (¬ (OrderStatus.submitted = OrderStatus.created ∨
        OrderStatus.submitted = OrderStatus.filled ∨
        OrderStatus.submitted = OrderStatus.canceled) ∧
     ¬ ((0 : ℚ) > 0) ∧
     (process_trade_result scenario_d_ledger ⟨1, 40, 100, 0, 0⟩ ⟨1, 1⟩ 0).2 = none) ∧
    (∃ o2, lookupId
        (process_trade_result scenario_d_ledger ⟨1, 40, 100, 0, 0⟩ ⟨1, 1⟩ 0).1.orders 1 =
        some o2 ∧
      o2.status = (if (40 : ℚ) = 100 - sum_filled_qty scenario_d_ledger 1
        then OrderStatus.filled else OrderStatus.partFilled)) ∧
    (if (40 : ℚ) = 100 - sum_filled_qty scenario_d_ledger 1
      then OrderStatus.filled else OrderStatus.partFilled) = OrderStatus.partFilled := by
  have hdetail : read_trade_order_detail scenario_d_ledger 1 =
      some (⟨1, .buy, 100, 100, .submitted, some 0⟩, ⟨1, "X", .long, 0, 0⟩) := rfl
  have hterm : ¬ (OrderStatus.submitted = OrderStatus.created ∨
      OrderStatus.submitted = OrderStatus.filled ∨
      OrderStatus.submitted = OrderStatus.canceled) := by decide
  have hok : (process_trade_result scenario_d_ledger ⟨1, 40, 100, 0, 0⟩ ⟨1, 1⟩ 0).2 =
      none := by
    norm_num [scenario_d_ledger, process_trade_result, read_trade_order_detail, lookupId,
      process_trade_delivery, deliver_loop, deliver_one, sum_filled_qty, sum_filled_list,
      settle_trade_result, fill_cash_change, fill_trade_result, fill_delivery_amount,
      write_trade_result, update_account_balance, update_position, updateAssoc,
      update_trade_order, update_trade_result]
    rfl
  refine ⟨⟨hterm, by norm_num, hok⟩, ?_, ?_⟩
  · exact ((claim_C4 scenario_d_ledger ⟨1, 40, 100, 0, 0⟩ ⟨1, 1⟩ 0
      ⟨1, .buy, 100, 100, .submitted, some 0⟩ ⟨1, "X", .long, 0, 0⟩ hdetail).2
      hterm).2.2.2 (by norm_num) hok
  · norm_num [sum_filled_qty, sum_filled_list, scenario_d_ledger]

theorem update_account_balance_ok {st st' : LedgerState} {aid : ℕ} {dc dac : ℚ}
    {a : Account} (ha : lookupId st.accounts aid = some a)
    (h : update_account_balance st aid dc dac = (st', none)) :
    lookupId st'.accounts aid =
      some { cash_amount := a.cash_amount + dc, available_cash := a.available_cash + dac } := by
  unfold update_account_balance at h
  rw [ha] at h
  simp only at h
  split_ifs at h
  · exact absurd (congrArg Prod.snd h) (by simp)
  · exact absurd (congrArg Prod.snd h) (by simp)
  · exact absurd (congrArg Prod.snd h) (by simp)
  · have hst : _ = st' := ((Prod.mk.injEq _ _ _ _).mp h).1
    rw [← hst]
    dsimp only
    rw [lookupId_updateAssoc_self, ha]
    rfl

theorem update_position_ok {st st' : LedgerState} {pid : ℕ} {dq daq : ℚ}
    {p : Position} (hp : lookupId st.positions pid = some p)
    (h : update_position st pid dq daq = (st', none)) :
    lookupId st'.positions pid =
      some { p with qty := p.qty + dq, available_qty := p.available_qty + daq } := by
  unfold update_position at h
  rw [hp] at h
  simp only at h
  split_ifs at h
  · exact absurd (congrArg Prod.snd h) (by simp)
  · exact absurd (congrArg Prod.snd h) (by simp)
  · exact absurd (congrArg Prod.snd h) (by simp)
  · have hst : _ = st' := ((Prod.mk.injEq _ _ _ _).mp h).1
    rw [← hst]
    dsimp only
    rw [lookupId_updateAssoc_self, hp]
    rfl

theorem settle_effects (st1 : LedgerState) (oid : ℕ) (od : TradeOrder) (aid : ℕ)
    (raw : RawTradeResult) (ns : OrderStatus) (today : ℤ) (p : Position) (a : Account)
    (hp : lookupId st1.positions od.pos_id = some p)
    (ha : lookupId st1.accounts aid = some a)
    (hok : (settle_trade_result st1 oid od aid raw ns today).2 = none) :
    (od.direction = .buy →
      (∃ p2, lookupId (settle_trade_result st1 oid od aid raw ns today).1.positions
          od.pos_id = some p2 ∧
        p2.qty = p.qty + raw.filled_qty ∧ p2.available_qty = p.available_qty) ∧
      (∃ a2, lookupId (settle_trade_result st1 oid od aid raw ns today).1.accounts aid =
          some a2 ∧
        a2.cash_amount = a.cash_amount + fill_cash_change od raw ∧
        a2.available_cash = a.available_cash + fill_cash_change od raw)) ∧
    (od.direction = .sell →
      (∃ a2, lookupId (settle_trade_result st1 oid od aid raw ns today).1.accounts aid =
          some a2 ∧
        a2.cash_amount = a.cash_amount + fill_cash_change od raw ∧
        a2.available_cash = a.available_cash) ∧
      (∃ p2, lookupId (settle_trade_result st1 oid od aid raw ns today).1.positions
          od.pos_id = some p2 ∧
        p2.qty = p.qty - raw.filled_qty ∧
        p2.available_qty = p.available_qty - raw.filled_qty)) := by
  unfold settle_trade_result at hok ⊢
  rw [hp] at hok ⊢
  simp only at hok ⊢
  by_cases hq : p.available_qty + raw.filled_qty < 0
  · rw [if_pos hq] at hok
    simp at hok
  · rw [if_neg hq] at hok ⊢
    rw [ha] at hok ⊢
    simp only at hok ⊢
    by_cases hc : a.available_cash + fill_cash_change od raw < 0
    · rw [if_pos hc] at hok
      simp at hok
    · rw [if_neg hc] at hok ⊢
      rcases hw : write_trade_result st1 (fill_trade_result od raw today) with ⟨st2, e2, i2⟩
      rw [hw] at hok
      cases e2 with
      | some msg => exact Option.noConfusion hok
      | none =>
        try simp only at hok ⊢
        have hw2 := write_trade_result_frame st1 (fill_trade_result od raw today)
        rw [hw] at hw2
        have hp2 : lookupId st2.positions od.pos_id = some p := by rw [hw2.2.1]; exact hp
        have ha2 : lookupId st2.accounts aid = some a := by rw [hw2.2.2]; exact ha
        constructor
        · intro hdir
          rw [hdir] at hok ⊢
          simp only at hok ⊢
          rcases hb : update_account_balance st2 aid (fill_cash_change od raw)
            (fill_cash_change od raw) with ⟨st3, e3⟩
          rw [hb] at hok
          cases e3 with
          | some msg => exact Option.noConfusion hok
          | none =>
            try simp only at hok ⊢
            have ha3 := update_account_balance_ok ha2 hb
            have hb2 := update_account_balance_frame st2 aid (fill_cash_change od raw)
              (fill_cash_change od raw)
            rw [hb] at hb2
            have hp3 : lookupId st3.positions od.pos_id = some p := by
              rw [hb2.2.2]
              exact hp2
            rcases hup : update_position st3 od.pos_id raw.filled_qty 0 with ⟨st4, e4⟩
            rw [hup] at hok
            cases e4 with
            | some msg => exact Option.noConfusion hok
            | none =>
              try simp only at hok ⊢
              have hp4 := update_position_ok hp3 hup
              have hu2 := update_position_frame st3 od.pos_id raw.filled_qty 0
              rw [hup] at hu2
              have ha4 : lookupId st4.accounts aid =
                  some { cash_amount := a.cash_amount + fill_cash_change od raw,
                         available_cash := a.available_cash + fill_cash_change od raw } := by
                rw [hu2.2.2]
                exact ha3
              have hfin := update_trade_order_state st4 oid (some ns) none false today
              constructor
              · refine ⟨{ p with qty := p.qty + raw.filled_qty, available_qty := p.available_qty + 0 }, ?_, ?_, ?_⟩
                · rw [hfin.2.1]
                  exact hp4
                · rfl
                · show p.available_qty + 0 = p.available_qty
                  ring
              · refine ⟨{ cash_amount := a.cash_amount + fill_cash_change od raw, available_cash := a.available_cash + fill_cash_change od raw }, ?_, ?_, ?_⟩
                · rw [hfin.1]
                  exact ha4
                · rfl
                · rfl
        · intro hdir
          rw [hdir] at hok ⊢
          simp only at hok ⊢
          rcases hb : update_account_balance st2 aid (fill_cash_change od raw) 0
            with ⟨st3, e3⟩
          rw [hb] at hok
          cases e3 with
          | some msg => exact Option.noConfusion hok
          | none =>
            try simp only at hok ⊢
            have ha3 := update_account_balance_ok ha2 hb
            have hb2 := update_account_balance_frame st2 aid (fill_cash_change od raw) 0
            rw [hb] at hb2
            have hp3 : lookupId st3.positions od.pos_id = some p := by
              rw [hb2.2.2]
              exact hp2
            rcases hup : update_position st3 od.pos_id (-raw.filled_qty) (-raw.filled_qty)
              with ⟨st4, e4⟩
            rw [hup] at hok
            cases e4 with
            | some msg => exact Option.noConfusion hok
            | none =>
              try simp only at hok ⊢
              have hp4 := update_position_ok hp3 hup
              have hu2 := update_position_frame st3 od.pos_id (-raw.filled_qty)
                (-raw.filled_qty)
              rw [hup] at hu2
              have ha4 : lookupId st4.accounts aid =
                  some { cash_amount := a.cash_amount + fill_cash_change od raw,
                         available_cash := a.available_cash + 0 } := by
                rw [hu2.2.2]
                exact ha3
              have hfin := update_trade_order_state st4 oid (some ns) none false today
              constructor
              · refine ⟨{ cash_amount := a.cash_amount + fill_cash_change od raw, available_cash := a.available_cash + 0 }, ?_, ?_, ?_⟩
                · rw [hfin.1]
                  exact ha4
                · rfl
                · show a.available_cash + 0 = a.available_cash
                  ring
              · refine ⟨{ p with qty := p.qty + -raw.filled_qty, available_qty := p.available_qty + -raw.filled_qty }, ?_, ?_, ?_⟩
                · rw [hfin.2.1]
                  exact hp4
                · show p.qty + -raw.filled_qty = p.qty - raw.filled_qty
                  ring
                · show p.available_qty + -raw.filled_qty = p.available_qty - raw.filled_qty
                  ring

theorem settle_effects_c5 (st1 : LedgerState) (oid : ℕ) (od : TradeOrder) (aid : ℕ)
    (raw : RawTradeResult) (ns : OrderStatus) (today : ℤ) (p : Position) (a : Account)
    (hp : lookupId st1.positions od.pos_id = some p)
    (ha : lookupId st1.accounts aid = some a)
    (hok : (settle_trade_result st1 oid od aid raw ns today).2 = none) :
    (od.direction = .buy →
      (∃ p2, lookupId (settle_trade_result st1 oid od aid raw ns today).1.positions
          od.pos_id = some p2 ∧
        p2.qty = p.qty + raw.filled_qty ∧ p2.available_qty = p.available_qty) ∧
      (∃ a2, lookupId (settle_trade_result st1 oid od aid raw ns today).1.accounts aid =
          some a2 ∧
        a2.cash_amount =
          a.cash_amount - (raw.filled_qty * raw.price + raw.transaction_fee) ∧
        a2.available_cash =
          a.available_cash - (raw.filled_qty * raw.price + raw.transaction_fee))) ∧
    (od.direction = .sell →
      (∃ a2, lookupId (settle_trade_result st1 oid od aid raw ns today).1.accounts aid =
          some a2 ∧
        a2.cash_amount =
          a.cash_amount + (raw.filled_qty * raw.price - raw.transaction_fee) ∧
        a2.available_cash = a.available_cash) ∧
      (∃ p2, lookupId (settle_trade_result st1 oid od aid raw ns today).1.positions
          od.pos_id = some p2 ∧
        p2.qty = p.qty - raw.filled_qty ∧
        p2.available_qty = p.available_qty - raw.filled_qty)) := by
  have H := settle_effects st1 oid od aid raw ns today p a hp ha hok
  constructor
  · intro hdir
    obtain ⟨⟨p2, hp2, hq2, haq2⟩, ⟨a2, ha2, hc2, hav2⟩⟩ := H.1 hdir
    have hfc : fill_cash_change od raw =
        -(raw.filled_qty * raw.price + raw.transaction_fee) := by
      unfold fill_cash_change
      rw [hdir]
      ring
    refine ⟨⟨p2, hp2, hq2, haq2⟩, ⟨a2, ha2, ?_, ?_⟩⟩
    · rw [hc2, hfc]
      ring
    · rw [hav2, hfc]
      ring
  · intro hdir
    obtain ⟨⟨a2, ha2, hc2, hav2⟩, ⟨p2, hp2, hq2, haq2⟩⟩ := H.2 hdir
    have hfc : fill_cash_change od raw =
        raw.filled_qty * raw.price - raw.transaction_fee := by
      unfold fill_cash_change
      rw [hdir]
    refine ⟨⟨a2, ha2, ?_, hav2⟩, ⟨p2, hp2, hq2, haq2⟩⟩
    rw [hc2, hfc]

/-- C5 (amended): for a fill processed successfully by `process_trade_result`,
provided the settlement pass the processor runs first leaves the ledger
unchanged, a buy fill adds `filled_qty` to the position quantity, leaves its
available quantity unchanged, and lowers both the cash amount and the
available cash by `filled_qty * price + fee`; a sell fill raises the cash
amount by `filled_qty * price - fee`, leaves the available cash unchanged, and
lowers both the position quantity and its available quantity by `filled_qty`.
(The unamended claim is refuted by `claim_C5_counterexample`: the embedded
delivery pass may change `available_qty` during a successful buy fill.) -/
theorem claim_C5 (st : LedgerState) (raw : RawTradeResult) (config : TradeConfig)
    (today : ℤ) (od : TradeOrder) (pos p : Position) (a : Account)
    (hread : read_trade_order_detail st raw.order_id = some (od, pos))
    (hp : lookupId st.positions od.pos_id = some p)
    (ha : lookupId st.accounts pos.account_id = some a)
    (hdel : process_trade_delivery st pos.account_id config today = (st, none))
    (hok : (process_trade_result st raw config today).2 = none) :
    (od.direction = .buy →
      (∃ p2, lookupId (process_trade_result st raw config today).1.positions
          od.pos_id = some p2 ∧
        p2.qty = p.qty + raw.filled_qty ∧ p2.available_qty = p.available_qty) ∧
      (∃ a2, lookupId (process_trade_result st raw config today).1.accounts
          pos.account_id = some a2 ∧
        a2.cash_amount =
          a.cash_amount - (raw.filled_qty * raw.price + raw.transaction_fee) ∧
        a2.available_cash =
          a.available_cash - (raw.filled_qty * raw.price + raw.transaction_fee))) ∧
    (od.direction = .sell →
      (∃ a2, lookupId (process_trade_result st raw config today).1.accounts
          pos.account_id = some a2 ∧
        a2.cash_amount =
          a.cash_amount + (raw.filled_qty * raw.price - raw.transaction_fee) ∧
        a2.available_cash = a.available_cash) ∧
      (∃ p2, lookupId (process_trade_result st raw config today).1.positions
          od.pos_id = some p2 ∧
        p2.qty = p.qty - raw.filled_qty ∧
        p2.available_qty = p.available_qty - raw.filled_qty)) := by
  unfold process_trade_result at hok ⊢
  rw [hread] at hok ⊢
  simp only at hok ⊢
  by_cases hst : od.status = .created ∨ od.status = .filled ∨ od.status = .canceled
  · rw [if_pos hst] at hok
    simp at hok
  · rw [if_neg hst] at hok ⊢
    rw [hdel] at hok ⊢
    simp only at hok ⊢
    by_cases h1 : raw.canceled_qty > 0
    · rw [if_pos h1] at hok ⊢
      by_cases h2 : raw.canceled_qty ≠ od.qty - sum_filled_qty st raw.order_id
      · rw [if_pos h2] at hok
        simp at hok
      · rw [if_neg h2] at hok ⊢
        exact settle_effects_c5 st raw.order_id od pos.account_id raw .canceled today
          p a hp ha hok
    · rw [if_neg h1] at hok ⊢
      by_cases h3 : raw.filled_qty > od.qty - sum_filled_qty st raw.order_id
      · rw [if_pos h3] at hok
        simp at hok
      · rw [if_neg h3] at hok ⊢
        by_cases h4 : raw.filled_qty = od.qty - sum_filled_qty st raw.order_id
        · rw [if_pos h4] at hok ⊢
          exact settle_effects_c5 st raw.order_id od pos.account_id raw .filled today
            p a hp ha hok
        · rw [if_neg h4] at hok ⊢
          exact settle_effects_c5 st raw.order_id od pos.account_id raw .partFilled today
            p a hp ha hok

/-- C5 counterexample: on `pending_fill_ledger` (a partially filled buy order
with a not-yet-delivered 40-share fill from day 0), processing the closing
60-share fill on day 1 succeeds, yet the available quantity of the buy
position changes from 0 to 40: the delivery pass embedded in
`process_trade_result` releases the earlier fill, refuting the unamended
"available_qty is unchanged" for successful buy fills. -/
theorem claim_C5_counterexample :
    (process_trade_result pending_fill_ledger ⟨1, 60, 100, 0, 0⟩ ⟨1, 1⟩ 1).2 = none ∧
    (lookupId pending_fill_ledger.orders 1).map TradeOrder.direction =
      some .buy ∧
    (lookupId pending_fill_ledger.positions 1).map Position.available_qty = some 0 ∧
    (lookupId (process_trade_result pending_fill_ledger
        ⟨1, 60, 100, 0, 0⟩ ⟨1, 1⟩ 1).1.positions 1).map Position.available_qty =
      some 40 := by
  refine ⟨?_, rfl, rfl, ?_⟩ <;>
  · norm_num [pending_fill_ledger, process_trade_result, read_trade_order_detail,
      lookupId, process_trade_delivery, deliver_loop, deliver_one, applicable_period,
      sum_filled_qty, sum_filled_list, settle_trade_result, fill_cash_change,
      fill_trade_result, fill_delivery_amount, write_trade_result,
      update_account_balance, update_position, updateAssoc, update_trade_order,
      update_trade_result]
    try rfl

/-- C5 witness: Scenario D. The first 40-share fill on the submitted 100-share
buy order is obtained from the amended theorem (the ledger has no pending
fills, so its delivery pass is a no-op): position quantity 0 + 40, available
quantity still 0, cash and available cash both 100000 - 4000; the stored order
status is partial-filled, and processing the following 60-share fill makes it
filled. -/
theorem claim_C5_witness :
    ((∃ p2, lookupId scenario_d_after_first.positions 1 = some p2 ∧
        p2.qty = 0 + 40 ∧ p2.available_qty = 0) ∧
      (∃ a2, lookupId scenario_d_after_first.accounts 1 = some a2 ∧
        a2.cash_amount = 100000 - (40 * 100 + 0) ∧
        a2.available_cash = 100000 - (40 * 100 + 0))) ∧
    (lookupId scenario_d_after_first.orders 1).map TradeOrder.status =
      some .partFilled ∧
    (lookupId (process_trade_result scenario_d_after_first
        ⟨1, 60, 100, 0, 0⟩ ⟨1, 1⟩ 0).1.orders 1).map TradeOrder.status =
      some .filled := by
  refine ⟨?_, ?_, ?_⟩
  · have hok0 : (process_trade_result scenario_d_ledger ⟨1, 40, 100, 0, 0⟩ ⟨1, 1⟩ 0).2 =
        none := by
      norm_num [scenario_d_ledger, process_trade_result, read_trade_order_detail,
        lookupId, process_trade_delivery, deliver_loop, deliver_one, applicable_period,
        sum_filled_qty, sum_filled_list, settle_trade_result, fill_cash_change,
        fill_trade_result, fill_delivery_amount, write_trade_result,
        update_account_balance, update_position, updateAssoc, update_trade_order,
        update_trade_result]
      try rfl
    have h := claim_C5 scenario_d_ledger ⟨1, 40, 100, 0, 0⟩ ⟨1, 1⟩ 0
      ⟨1, .buy, 100, 100, .submitted, some 0⟩ ⟨1, "X", .long, 0, 0⟩
      ⟨1, "X", .long, 0, 0⟩ ⟨100000, 100000⟩ rfl rfl rfl rfl hok0
    obtain ⟨⟨p2, hp2, hq2, haq2⟩, ⟨a2, ha2, hc2, hav2⟩⟩ := h.1 rfl
    exact ⟨⟨p2, hp2, hq2, haq2⟩, ⟨a2, ha2, hc2, hav2⟩⟩
  · norm_num [scenario_d_after_first, scenario_d_ledger, process_trade_result,
      read_trade_order_detail, lookupId, process_trade_delivery, deliver_loop,
      deliver_one, applicable_period, sum_filled_qty, sum_filled_list,
      settle_trade_result, fill_cash_change, fill_trade_result, fill_delivery_amount,
      write_trade_result, update_account_balance, update_position, updateAssoc,
      update_trade_order, update_trade_result]
  · norm_num [scenario_d_after_first, scenario_d_ledger, process_trade_result,
      read_trade_order_detail, lookupId, process_trade_delivery, deliver_loop,
      deliver_one, applicable_period, sum_filled_qty, sum_filled_list,
      settle_trade_result, fill_cash_change, fill_trade_result, fill_delivery_amount,
      write_trade_result, update_account_balance, update_position, updateAssoc,
      update_trade_order, update_trade_result]
    try rfl

/-- C6: `process_trade_delivery` runs `deliver_loop` over the not-delivered
fills; for a fill of the processed account, a fill whose delivery delay
(`stock_delivery_period` for buys, `cash_delivery_period` for sells) has not
elapsed is left untouched, and an elapsed fill that is processed without error
adds its `delivery_amount` to the available quantity of the buy position
(quantity itself unchanged) or to the available cash of the selling account
(cash amount unchanged), and flips the stored delivery status to delivered. -/
theorem claim_C6 (st : LedgerState) (account_id : ℕ) (config : TradeConfig)
    (current_day : ℤ) (entry : ℕ × TradeResult) (od : TradeOrder) (pos : Position)
    (hdetail : read_trade_order_detail st entry.2.order_id = some (od, pos))
    (haid : pos.account_id = account_id) :
    process_trade_delivery st account_id config current_day =
      deliver_loop account_id config current_day st
        (st.results.filter (fun q => decide (q.2.delivery_status = .nd))) ∧
    (current_day - entry.2.execution_day < applicable_period config od.direction →
      deliver_one account_id config current_day st entry = (st, none)) ∧
    (applicable_period config od.direction ≤ current_day - entry.2.execution_day →
      ∀ st1, deliver_one account_id config current_day st entry = (st1, none) →
        lookupId st1.results entry.1 =
          (lookupId st.results entry.1).map
            (fun r => { r with delivery_status := DeliveryStatus.dl }) ∧
        (od.direction = .buy →
          ∀ p, lookupId st.positions od.pos_id = some p →
            ∃ p2, lookupId st1.positions od.pos_id = some p2 ∧
              p2.available_qty = p.available_qty + entry.2.delivery_amount ∧
              p2.qty = p.qty) ∧
        (od.direction = .sell →
          ∀ a, lookupId st.accounts account_id = some a →
            ∃ a2, lookupId st1.accounts account_id = some a2 ∧
              a2.available_cash = a.available_cash + entry.2.delivery_amount ∧
              a2.cash_amount = a.cash_amount)) := by
  refine ⟨rfl, ?_, ?_⟩
  · intro hlt
    unfold deliver_one
    rw [hdetail]
    simp only
    rw [if_neg (not_not_intro haid), if_pos hlt]
  · intro hge st1 hone
    unfold deliver_one at hone
    rw [hdetail] at hone
    simp only at hone
    rw [if_neg (not_not_intro haid), if_neg (not_lt.mpr hge)] at hone
    cases hdir : od.direction with
    | buy =>
      rw [hdir] at hone
      simp only at hone
      rcases hup : update_position st od.pos_id 0 entry.2.delivery_amount with ⟨stm, e⟩
      rw [hup] at hone
      cases e with
      | some msg => exact absurd (congrArg Prod.snd hone) (by simp)
      | none =>
        simp only at hone
        have hst1 : update_trade_result stm entry.1 .dl = st1 :=
          ((Prod.mk.injEq _ _ _ _).mp hone).1
        have hfr := update_position_frame st od.pos_id 0 entry.2.delivery_amount
        rw [hup] at hfr
        refine ⟨?_, ?_, ?_⟩
        · rw [← hst1]
          unfold update_trade_result
          simp only
          rw [lookupId_updateAssoc_self, hfr.2.1]
        · intro _ p hp
          have hpos := update_position_ok hp hup
          refine ⟨{ p with qty := p.qty + 0, available_qty := p.available_qty + entry.2.delivery_amount }, ?_, rfl, ?_⟩
          · rw [← hst1]
            unfold update_trade_result
            simp only
            exact hpos
          · show p.qty + 0 = p.qty
            ring
        · intro hcon
          exact TradeDirection.noConfusion hcon
    | sell =>
      rw [hdir] at hone
      simp only at hone
      rw [haid] at hone
      rcases hub : update_account_balance st account_id 0 entry.2.delivery_amount
        with ⟨stm, e⟩
      rw [hub] at hone
      cases e with
      | some msg => exact absurd (congrArg Prod.snd hone) (by simp)
      | none =>
        simp only at hone
        have hst1 : update_trade_result stm entry.1 .dl = st1 :=
          ((Prod.mk.injEq _ _ _ _).mp hone).1
        have hfr := update_account_balance_frame st account_id 0 entry.2.delivery_amount
        rw [hub] at hfr
        refine ⟨?_, ?_, ?_⟩
        · rw [← hst1]
          unfold update_trade_result
          simp only
          rw [lookupId_updateAssoc_self, hfr.2.1]
        · intro hcon
          exact TradeDirection.noConfusion hcon
        · intro _ a ha
          have hacc := update_account_balance_ok ha hub
          refine ⟨{ cash_amount := a.cash_amount + 0, available_cash := a.available_cash + entry.2.delivery_amount }, ?_, rfl, ?_⟩
          · rw [← hst1]
            unfold update_trade_result
            simp only
            exact hacc
          · show a.cash_amount + 0 = a.cash_amount
            ring

/-- C6 witness: Scenario E. On `pending_fill_ledger` (one not-delivered
40-share buy fill executed on day 0, stock delivery period 1), the fill is
left untouched by the theorem on day 0, the whole settlement run on day 0
returns the ledger unchanged, and the run on day 1 succeeds, raises the
available quantity of the position to 40 and marks the fill delivered. -/
theorem claim_C6_witness :
    deliver_one 1 ⟨1, 1⟩ 0 pending_fill_ledger (1, ⟨1, 40, 100, 0, 0, 40, .nd, 0⟩) =
      (pending_fill_ledger, none) ∧
    process_trade_delivery pending_fill_ledger 1 ⟨1, 1⟩ 0 =
      (pending_fill_ledger, none) ∧
    (lookupId (process_trade_delivery pending_fill_ledger 1 ⟨1, 1⟩ 1).1.positions
        1).map Position.available_qty = some 40 ∧
    (lookupId (process_trade_delivery pending_fill_ledger 1 ⟨1, 1⟩ 1).1.results
        1).map TradeResult.delivery_status = some .dl ∧
    (process_trade_delivery pending_fill_ledger 1 ⟨1, 1⟩ 1).2 = none := by
  refine ⟨?_, ?_, ?_, ?_, ?_⟩
  · exact (claim_C6 pending_fill_ledger 1 ⟨1, 1⟩ 0 (1, ⟨1, 40, 100, 0, 0, 40, .nd, 0⟩)
      ⟨1, .buy, 100, 100, .partFilled, some 0⟩ ⟨1, "X", .long, 40, 0⟩ rfl rfl).2.1
      (by norm_num [applicable_period])
  · rfl
  · norm_num [pending_fill_ledger, process_trade_delivery, deliver_loop, deliver_one,
      read_trade_order_detail, lookupId, applicable_period, update_position,
      update_account_balance, update_trade_result, updateAssoc]
    try rfl
  · norm_num [pending_fill_ledger, process_trade_delivery, deliver_loop, deliver_one,
      read_trade_order_detail, lookupId, applicable_period, update_position,
      update_account_balance, update_trade_result, updateAssoc]
    try rfl
  · norm_num [pending_fill_ledger, process_trade_delivery, deliver_loop, deliver_one,
      read_trade_order_detail, lookupId, applicable_period, update_position,
      update_account_balance, update_trade_result, updateAssoc]
    try rfl

end Qteasy
